import Mathlib

/-!
# CRC-CCITT and CRC-32 of `Platform/Core/src/crc.c`

A shallow embedding of the bit-serial CRC engine `Crc`, of the byte-array
codec (`CrcCcittTypeToBytes`, `BytesToCrcCcittType`, `Crc32TypeToBytes`,
`BytesToCrc32Type`), of the two width-specific entry points `CrcCcitt` and
`Crc32`, and of the helper `initCRC_16bit`.

Conventions of the embedding:

* a `uint8_t` array is a `List Nat` whose elements are bytes (`< 256`); the
  read `a[i]` is `a.getD i 0` and the write `a[i] = v` is `a.set i v`;
* `uint16_t` / `uint32_t` values are natural numbers below `2 ^ 16` /
  `2 ^ 32`; every shift that the C code performs is followed in the source by
  a mask, which the embedding keeps, so no intermediate value leaves its type;
* a `for (i = 0; i < n; ++i)` loop is a left fold over `List.range n`;
* an output array parameter becomes the returned list;
* a data buffer is a list together with the length argument the caller passes;
  the theorems take the length to be the length of the list, so every read
  `data[dataIndex]` is inside the buffer, and take the elements to be bytes
  (`IsBytes`), as the element type `uint8_t` guarantees in C.

The development has three layers: the embedding of the C functions, a proof
that the byte-array engine computes a fixed-width register recurrence
(`CrcCcitt_eq_R16`, `Crc32_eq_R32`), and the properties of the checksums, which
are derived on the register recurrence.
-/

namespace CrcLib

/-! ## Constants of `crc.c` -/

/-- Macro `BITS_PER_BYTE`: `#define BITS_PER_BYTE 8`. -/
def BITS_PER_BYTE : Nat := 8

/-- Macro `ONE_BYTE`: `#define ONE_BYTE (BITS_PER_BYTE)`. -/
def ONE_BYTE : Nat := BITS_PER_BYTE

/-- Macro `TWO_BYTES`: `#define TWO_BYTES (2 * BITS_PER_BYTE)`. -/
def TWO_BYTES : Nat := 2 * BITS_PER_BYTE

/-- Macro `THREE_BYTES`: `#define THREE_BYTES (3 * BITS_PER_BYTE)`. -/
def THREE_BYTES : Nat := 3 * BITS_PER_BYTE

/-- Macro `BYTE_0`: `#define BYTE_0 0x000000ff`. -/
def BYTE_0 : Nat := 0x000000ff

/-- Macro `BYTE_1`: `#define BYTE_1 0x0000ff00`. -/
def BYTE_1 : Nat := 0x0000ff00

/-- Macro `BYTE_2`: `#define BYTE_2 0x00ff0000`. -/
def BYTE_2 : Nat := 0x00ff0000

/-- Macro `BYTE_3`: `#define BYTE_3 0xff000000`. -/
def BYTE_3 : Nat := 0xff000000

/-- Macro `MSB`: `#define MSB 0x80`. -/
def MSB : Nat := 0x80

/-- The CCITT polynomial bytes: `static const uint8_t CRC_CCITT_POLY [] = { 0x10, 0x21 };`. -/
def CRC_CCITT_POLY : List Nat := [0x10, 0x21]

/-- The CRC-32 polynomial bytes: `static const uint8_t CRC_32_POLY [] = { 0xed, 0xb8, 0x83, 0x20 };`. -/
def CRC_32_POLY : List Nat := [0xed, 0xb8, 0x83, 0x20]

/-- Modelled from the spec: the header `crc.h` that declares `CRC_CCITT_LENGTH`
is not part of the sources; the spec fixes the CCITT polynomial and register
at 2 bytes. -/
def CRC_CCITT_LENGTH : Nat := 2

/-- Modelled from the spec: the header `crc.h` that declares `CRC_32_LENGTH`
is not part of the sources; the spec fixes the CRC-32 polynomial and register
at 4 bytes. -/
def CRC_32_LENGTH : Nat := 4

/-! ## The generic engine `Crc` -/

/-- Body of the inner `for (crcIndex ...)` loop of the branch "top CRC bit = 1"
(lines 80-88): shift byte `crcIndex` left by one, shift in the top bit of the
next byte, then XOR the polynomial byte. Both assignments are in place. -/
def shiftXorByte (poly : List Nat) (crc : List Nat) (crcIndex : Nat) : List Nat :=
  let crc1 := crc.set crcIndex
    (((crc.getD crcIndex 0 <<< 1) &&& 0xff) |||
      ((crc.getD (crcIndex + 1) 0 &&& MSB) >>> (BITS_PER_BYTE - 1)))
  crc1.set crcIndex (crc1.getD crcIndex 0 ^^^ poly.getD crcIndex 0)

/-- Body of the inner `for (crcIndex ...)` loop of the branch "top CRC bit = 0"
(lines 97-102): shift byte `crcIndex` left by one and shift in the top bit of
the next byte, in place. -/
def shiftByte (crc : List Nat) (crcIndex : Nat) : List Nat :=
  crc.set crcIndex
    (((crc.getD crcIndex 0 <<< 1) &&& 0xff) |||
      ((crc.getD (crcIndex + 1) 0 &&& MSB) >>> (BITS_PER_BYTE - 1)))

/-- One iteration of the `bitCount` loop (lines 76-105). The test on the top
bit of `crc[0]` is made once, before any byte is shifted. After the inner loop
`crcIndex` is `polyLength - 1` (and the loop does not run when `polyLength` is
`0` or `1`, which truncated subtraction reproduces). -/
def bitStep (poly : List Nat) (polyLength : Nat) (crc : List Nat) : List Nat :=
  if (crc.getD 0 0 &&& MSB) ≠ 0 then
    let crc1 := (List.range (polyLength - 1)).foldl (shiftXorByte poly) crc
    let crcIndex := polyLength - 1
    let crc2 := crc1.set crcIndex ((crc1.getD crcIndex 0 <<< 1) &&& 0xff)
    crc2.set crcIndex (crc2.getD crcIndex 0 ^^^ poly.getD crcIndex 0)
  else
    let crc1 := (List.range (polyLength - 1)).foldl shiftByte crc
    let crcIndex := polyLength - 1
    crc1.set crcIndex ((crc1.getD crcIndex 0 <<< 1) &&& 0xff)

/-- One iteration of the `dataIndex` loop (lines 71-106) for the data byte
`b = data[dataIndex]`: `crc[0] ^= b`, then `BITS_PER_BYTE` bit steps. -/
def byteStep (poly : List Nat) (polyLength : Nat) (crc : List Nat) (b : Nat) : List Nat :=
  (List.range BITS_PER_BYTE).foldl (fun c _ => bitStep poly polyLength c)
    (crc.set 0 (crc.getD 0 0 ^^^ b))

/-- The function `Crc` (lines 53-108). `crc` is the content of the output array
on entry and the result is its content on exit. The callers pass the same
array as `seed` and as `crc`; the seed-loading loop then copies every byte
onto itself, which is what the embedding computes when `seed = crc`. -/
def Crc (poly : List Nat) (polyLength : Nat) (seed : List Nat) (data : List Nat)
    (dataLength : Nat) (crc : List Nat) : List Nat :=
  let crc0 := (List.range polyLength).foldl (fun c crcIndex => c.set crcIndex (seed.getD crcIndex 0)) crc
  (List.range dataLength).foldl
    (fun c dataIndex => byteStep poly polyLength c (data.getD dataIndex 0)) crc0

/-! ## The byte-array codec -/

/-- Function `CrcCcittTypeToBytes` (lines 117-122): the two bytes written to `bytes`. -/
def CrcCcittTypeToBytes (type : Nat) : List Nat :=
  [(type >>> ONE_BYTE) &&& BYTE_0, type &&& 0xff]

/-- Function `BytesToCrcCcittType` (lines 130-134). -/
def BytesToCrcCcittType (bytes : List Nat) : Nat :=
  ((bytes.getD 0 0 <<< ONE_BYTE) &&& BYTE_1) ||| (bytes.getD 1 0 &&& BYTE_0)

/-- Function `Crc32TypeToBytes` (lines 143-150): the four bytes written to `bytes`. -/
def Crc32TypeToBytes (type : Nat) : List Nat :=
  [(type >>> THREE_BYTES) &&& BYTE_0, (type >>> TWO_BYTES) &&& BYTE_0,
   (type >>> ONE_BYTE) &&& BYTE_0, type &&& BYTE_0]

/-- Function `BytesToCrc32Type` (lines 158-164). -/
def BytesToCrc32Type (bytes : List Nat) : Nat :=
  ((bytes.getD 0 0 <<< THREE_BYTES) &&& BYTE_3) |||
  ((bytes.getD 1 0 <<< TWO_BYTES) &&& BYTE_2) |||
  ((bytes.getD 2 0 <<< ONE_BYTE) &&& BYTE_1) |||
  (bytes.getD 3 0 &&& BYTE_0)

/-! ## The width-specific entry points -/

/-- Function `CrcCcitt` (lines 174-189): the local array `crc` receives the seed bytes
and is passed to `Crc` both as seed and as output. -/
def CrcCcitt (data : List Nat) (length : Nat) (seed : Nat) : Nat :=
  let crc := CrcCcittTypeToBytes seed
  BytesToCrcCcittType (Crc CRC_CCITT_POLY CRC_CCITT_LENGTH crc data length crc)

/-- Function `Crc32` (lines 199-214): the local array `crc` receives the seed bytes and
is passed to `Crc` both as seed and as output. -/
def Crc32 (data : List Nat) (length : Nat) (seed : Nat) : Nat :=
  let crc := Crc32TypeToBytes seed
  BytesToCrc32Type (Crc CRC_32_POLY CRC_32_LENGTH crc data length crc)

/-- Function `initCRC_16bit` (lines 224-232). -/
def initCRC_16bit (v : Nat) (seed : Nat) : Nat :=
  let c : List Nat := [(v >>> 8) &&& 0xFF, v &&& 0x00FF]
  CrcCcitt c 2 seed

/-- A buffer of `uint8_t`: every element is below `256`. -/
def IsBytes (d : List Nat) : Prop := ∀ b ∈ d, b < 256

instance (d : List Nat) : Decidable (IsBytes d) := by
  unfold IsBytes; infer_instance

/-- The buffer `d` with bit `j` of byte `i` inverted. -/
def flipBit (d : List Nat) (i j : Nat) : List Nat :=
  d.set i (d.getD i 0 ^^^ (1 <<< j))


/-! ## The native register formulation

The same division written on one fixed-width register, as the design notes of
the specification describe it. The byte-array engine is proved below to
compute exactly these functions. -/

/-- One bit step on a 16-bit register: shift left inside 16 bits and XOR
`0x1021` when bit 15 was set before the shift. -/
def reg16Bit (r : Nat) : Nat :=
  if r.testBit 15 then ((r <<< 1) % 2 ^ 16) ^^^ 0x1021 else (r <<< 1) % 2 ^ 16

/-- One data byte on a 16-bit register: XOR the byte into the top byte, then
eight bit steps. -/
def reg16Byte (r b : Nat) : Nat := reg16Bit^[8] (r ^^^ (b <<< 8))

/-- The 16-bit register after all bytes of `d`, starting from `s`. -/
def R16 (s : Nat) (d : List Nat) : Nat := d.foldl reg16Byte s

/-- One bit step on a 32-bit register: shift left inside 32 bits and XOR
`0xEDB88320` when bit 31 was set before the shift. -/
def reg32Bit (r : Nat) : Nat :=
  if r.testBit 31 then ((r <<< 1) % 2 ^ 32) ^^^ 0xEDB88320 else (r <<< 1) % 2 ^ 32

/-- One data byte on a 32-bit register: XOR the byte into the top byte, then
eight bit steps. -/
def reg32Byte (r b : Nat) : Nat := reg32Bit^[8] (r ^^^ (b <<< 24))

/-- The 32-bit register after all bytes of `d`, starting from `s`. -/
def R32 (s : Nat) (d : List Nat) : Nat := d.foldl reg32Byte s

/-- The byte register `c` holds the 16-bit value `r`, most significant byte
first. -/
def Rep16 (c : List Nat) (r : Nat) : Prop :=
  ∃ a b, a < 256 ∧ b < 256 ∧ c = [a, b] ∧ r = 2 ^ 8 * a + b

/-- The byte register `c` holds the 32-bit value `r`, most significant byte
first. -/
def Rep32 (c : List Nat) (r : Nat) : Prop :=
  ∃ a b c2 d, a < 256 ∧ b < 256 ∧ c2 < 256 ∧ d < 256 ∧ c = [a, b, c2, d] ∧
    r = 2 ^ 8 * (2 ^ 8 * (2 ^ 8 * a + b) + c2) + d

/-- A difference between two 16-bit registers that the CCITT steps never erase. -/
def Live16 (e : Nat) : Prop := e ≠ 0 ∧ e < 2 ^ 16

/-- A difference between two 32-bit registers that the CRC-32 steps never erase:
its five low bits are clear, so it is not the one value the step sends to zero. -/
def Live32 (e : Nat) : Prop := e ≠ 0 ∧ e < 2 ^ 32 ∧ e % 32 = 0

/-- The byte-wise XOR of two buffers. -/
def xorBytes (d1 d2 : List Nat) : List Nat := List.zipWith (fun x y => x ^^^ y) d1 d2

/-! ## Bitwise arithmetic on natural numbers -/

theorem xor_pack (k x y p q : Nat) (hy : y < 2 ^ k) (hq : q < 2 ^ k) :
    (2 ^ k * x + y) ^^^ (2 ^ k * p + q) = 2 ^ k * (x ^^^ p) + (y ^^^ q) := by
  apply Nat.eq_of_testBit_eq
  intro j
  rw [Nat.testBit_xor, Nat.testBit_mul_pow_two_add _ hy, Nat.testBit_mul_pow_two_add _ hq,
    Nat.testBit_mul_pow_two_add _ (Nat.xor_lt_two_pow hy hq)]
  split <;> simp

theorem xor_mod_pow (k a b : Nat) : (a ^^^ b) % 2 ^ k = (a % 2 ^ k) ^^^ (b % 2 ^ k) := by
  apply Nat.eq_of_testBit_eq
  intro j
  simp only [Nat.testBit_mod_two_pow, Nat.testBit_xor]
  by_cases h : j < k <;> simp [h]

theorem xor_shl (k a b : Nat) : (a ^^^ b) <<< k = (a <<< k) ^^^ (b <<< k) := by
  apply Nat.eq_of_testBit_eq
  intro j
  simp only [Nat.testBit_shiftLeft, Nat.testBit_xor]
  by_cases h : j ≥ k <;> simp [h]

theorem or_pack (k x y : Nat) (hy : y < 2 ^ k) : (2 ^ k * x) ||| y = 2 ^ k * x + y :=
  (Nat.mul_add_lt_is_or hy x).symm

theorem shl_mask_byte (a : Nat) : (a <<< 1) &&& 0xff = 2 * a % 256 := by
  have h : (a <<< 1) &&& 0xff = (a <<< 1) % 2 ^ 8 := Nat.and_pow_two_sub_one_eq_mod (a <<< 1) 8
  rw [h, Nat.shiftLeft_eq]
  omega

set_option maxRecDepth 100000 in
theorem msb_shift_byte : ∀ b < 256, (b &&& 0x80) >>> 7 = b / 128 := by decide

set_option maxRecDepth 100000 in
theorem msb_ne_zero_byte : ∀ a < 256, (a &&& 0x80) ≠ 0 ↔ 128 ≤ a := by decide

theorem testBit_top (k r : Nat) (h : r < 2 ^ (k + 1)) : r.testBit k = decide (2 ^ k ≤ r) := by
  rw [Nat.testBit_to_div_mod]
  have h2 : 2 ^ (k + 1) = 2 * 2 ^ k := by ring
  have hp : 0 < 2 ^ k := Nat.two_pow_pos k
  have hd : r / 2 ^ k < 2 := by
    rw [Nat.div_lt_iff_lt_mul hp]; omega
  by_cases hle : 2 ^ k ≤ r
  · have : 1 ≤ r / 2 ^ k := (Nat.le_div_iff_mul_le hp).2 (by omega)
    simp [hle]; omega
  · have : r / 2 ^ k = 0 := Nat.div_eq_of_lt (by omega)
    simp [hle, this]

theorem shr_mask_byte (k r : Nat) : (r >>> k) &&& 0xff = r / 2 ^ k % 256 := by
  have h : (r >>> k) &&& 0xff = (r >>> k) % 2 ^ 8 := Nat.and_pow_two_sub_one_eq_mod (r >>> k) 8
  rw [h, Nat.shiftRight_eq_div_pow]
  rfl

theorem mask_byte (r : Nat) : r &&& 0xff = r % 256 :=
  Nat.and_pow_two_sub_one_eq_mod r 8

set_option maxRecDepth 100000 in
theorem shl8_mask_byte : ∀ a < 256, (a <<< 8) &&& 0xff00 = 2 ^ 8 * a := by decide

set_option maxRecDepth 100000 in
theorem shl16_mask_byte : ∀ a < 256, (a <<< 16) &&& 0xff0000 = 2 ^ 16 * a := by decide

set_option maxRecDepth 100000 in
theorem shl24_mask_byte : ∀ a < 256, (a <<< 24) &&& 0xff000000 = 2 ^ 24 * a := by decide

/-! ## The codec on well-formed registers -/

theorem bytesToCcitt_pair (a b : Nat) (ha : a < 256) (hb : b < 256) :
    BytesToCrcCcittType [a, b] = 2 ^ 8 * a + b := by
  simp only [BytesToCrcCcittType, List.getD_cons_zero, List.getD_cons_succ, ONE_BYTE,
    BITS_PER_BYTE, BYTE_0, BYTE_1]
  rw [shl8_mask_byte a ha, mask_byte, Nat.mod_eq_of_lt hb]
  exact or_pack 8 a b hb

theorem ccittToBytes_pair (a b : Nat) (ha : a < 256) (hb : b < 256) :
    CrcCcittTypeToBytes (2 ^ 8 * a + b) = [a, b] := by
  simp only [CrcCcittTypeToBytes, ONE_BYTE, BITS_PER_BYTE, BYTE_0]
  rw [shr_mask_byte, mask_byte]
  congr 1
  · omega
  · congr 1
    omega

theorem rep16_toBytes (s : Nat) (hs : s < 2 ^ 16) : Rep16 (CrcCcittTypeToBytes s) s := by
  refine ⟨s / 256, s % 256, by omega, by omega, ?_, by omega⟩
  simp only [CrcCcittTypeToBytes, ONE_BYTE, BITS_PER_BYTE, BYTE_0]
  rw [shr_mask_byte, mask_byte]
  congr 1
  omega

theorem rep16_bytesTo {c : List Nat} {r : Nat} (h : Rep16 c r) : BytesToCrcCcittType c = r := by
  obtain ⟨a, b, ha, hb, rfl, rfl⟩ := h
  exact bytesToCcitt_pair a b ha hb

theorem rep16_toBytes_eq {c : List Nat} {r : Nat} (h : Rep16 c r) : CrcCcittTypeToBytes r = c := by
  obtain ⟨a, b, ha, hb, rfl, rfl⟩ := h
  exact ccittToBytes_pair a b ha hb

theorem rep16_lt {c : List Nat} {r : Nat} (h : Rep16 c r) : r < 2 ^ 16 := by
  obtain ⟨a, b, ha, hb, rfl, rfl⟩ := h
  omega


/-! ## The CCITT engine step by step -/

theorem bitStep_ccitt_pair (a b : Nat) :
    bitStep CRC_CCITT_POLY CRC_CCITT_LENGTH [a, b] =
      if (a &&& 0x80) ≠ 0 then
        [(((a <<< 1) &&& 0xff) ||| ((b &&& 0x80) >>> 7)) ^^^ 0x10, ((b <<< 1) &&& 0xff) ^^^ 0x21]
      else
        [((a <<< 1) &&& 0xff) ||| ((b &&& 0x80) >>> 7), (b <<< 1) &&& 0xff] := by
  simp [bitStep, CRC_CCITT_POLY, CRC_CCITT_LENGTH, shiftXorByte, shiftByte, MSB, BITS_PER_BYTE,
    List.range, List.range.loop]

theorem rep16_bitStep {c : List Nat} {r : Nat} (h : Rep16 c r) :
    Rep16 (bitStep CRC_CCITT_POLY CRC_CCITT_LENGTH c) (reg16Bit r) := by
  obtain ⟨a, b, ha, hb, rfl, rfl⟩ := h
  have hr : 2 ^ 8 * a + b < 2 ^ (15 + 1) := by omega
  rw [bitStep_ccitt_pair, reg16Bit, testBit_top 15 _ hr,
    shl_mask_byte, shl_mask_byte, msb_shift_byte b hb, Nat.shiftLeft_eq]
  have hor : (2 * a % 256) ||| (b / 128) = 2 * a % 256 + b / 128 := by
    have h1 : 2 * a % 256 = 2 ^ 1 * (a % 128) := by omega
    rw [h1]
    exact or_pack 1 _ _ (by omega)
  have hsh : (2 ^ 8 * a + b) * 2 ^ 1 % 2 ^ 16 = 2 ^ 8 * (2 * a % 256 + b / 128) + 2 * b % 256 := by
    omega
  rw [hor, hsh]
  by_cases hm : 128 ≤ a
  · have hm2 : 2 ^ 15 ≤ 2 ^ 8 * a + b := by omega
    rw [if_pos ((msb_ne_zero_byte a ha).2 hm), decide_eq_true hm2, if_pos rfl]
    have hp : (0x1021 : Nat) = 2 ^ 8 * 0x10 + 0x21 := by norm_num
    rw [hp, xor_pack 8 _ _ _ _ (by omega) (by norm_num)]
    exact ⟨_, _, Nat.xor_lt_two_pow (n := 8) (by omega) (by norm_num),
      Nat.xor_lt_two_pow (n := 8) (by omega) (by norm_num), rfl, rfl⟩
  · have hm2 : ¬ 2 ^ 15 ≤ 2 ^ 8 * a + b := by omega
    rw [if_neg (fun hc => hm ((msb_ne_zero_byte a ha).1 hc)), decide_eq_false hm2,
      if_neg Bool.false_ne_true]
    exact ⟨_, _, by omega, by omega, rfl, rfl⟩

theorem rep16_xor_data {c : List Nat} {r : Nat} (h : Rep16 c r) (x : Nat) (hx : x < 256) :
    Rep16 (c.set 0 (c.getD 0 0 ^^^ x)) (r ^^^ (x <<< 8)) := by
  obtain ⟨a, b, ha, hb, rfl, rfl⟩ := h
  refine ⟨a ^^^ x, b, Nat.xor_lt_two_pow (n := 8) ha hx, hb, by simp, ?_⟩
  have hx8 : x <<< 8 = 2 ^ 8 * x + 0 := by rw [Nat.shiftLeft_eq]; ring
  rw [hx8, xor_pack 8 _ _ _ _ hb (by norm_num)]
  simp

theorem rep16_iterate {c : List Nat} {r : Nat} (n : Nat) (h : Rep16 c r) :
    Rep16 ((List.range n).foldl (fun c _ => bitStep CRC_CCITT_POLY CRC_CCITT_LENGTH c) c)
      (reg16Bit^[n] r) := by
  induction n generalizing c r with
  | zero => simpa using h
  | succ n ih =>
    rw [List.range_succ, List.foldl_append, Function.iterate_succ_apply']
    exact rep16_bitStep (ih h)

theorem rep16_byteStep {c : List Nat} {r : Nat} (h : Rep16 c r) (x : Nat) (hx : x < 256) :
    Rep16 (byteStep CRC_CCITT_POLY CRC_CCITT_LENGTH c x) (reg16Byte r x) :=
  rep16_iterate 8 (rep16_xor_data h x hx)

theorem rep16_foldl {c : List Nat} {r : Nat} (d : List Nat) (h : Rep16 c r) (hd : IsBytes d) :
    Rep16 (d.foldl (byteStep CRC_CCITT_POLY CRC_CCITT_LENGTH) c) (R16 r d) := by
  induction d generalizing c r with
  | nil => simpa [R16] using h
  | cons x t ih =>
    have hx : x < 256 := hd x (List.mem_cons_self x t)
    have ht : IsBytes t := fun y hy => hd y (List.mem_cons_of_mem x hy)
    simpa [R16] using ih (rep16_byteStep h x hx) ht


/-! ## The data loop as a fold over the buffer -/

theorem foldl_range_getD {α : Type} (f : α → Nat → α) (d : List Nat) (c : α) :
    (List.range d.length).foldl (fun c i => f c (d.getD i 0)) c = d.foldl f c := by
  induction d using List.reverseRecOn generalizing c with
  | nil => rfl
  | append_singleton l a ih =>
    rw [List.length_append, List.length_singleton, List.range_succ, List.foldl_append,
      List.foldl_append]
    have hpre : (List.range l.length).foldl (fun c i => f c ((l ++ [a]).getD i 0)) c
        = (List.range l.length).foldl (fun c i => f c (l.getD i 0)) c := by
      apply List.foldl_ext
      intro c0 i hi
      rw [List.getD_append l [a] 0 i (List.mem_range.1 hi)]
    rw [hpre, ih]
    simp [List.getD_append_right]

theorem Crc_ccitt_eq_foldl (a b : Nat) (d : List Nat) :
    Crc CRC_CCITT_POLY CRC_CCITT_LENGTH [a, b] d d.length [a, b]
      = d.foldl (byteStep CRC_CCITT_POLY CRC_CCITT_LENGTH) [a, b] := by
  have hload : (List.range CRC_CCITT_LENGTH).foldl
      (fun c crcIndex => c.set crcIndex (([a, b] : List Nat).getD crcIndex 0)) [a, b] = [a, b] := by
    simp [CRC_CCITT_LENGTH, List.range, List.range.loop]
  unfold Crc
  simp only [hload]
  exact foldl_range_getD (byteStep CRC_CCITT_POLY CRC_CCITT_LENGTH) d [a, b]

theorem rep16_Crc (s : Nat) (hs : s < 2 ^ 16) (d : List Nat) (hd : IsBytes d) :
    Rep16 (Crc CRC_CCITT_POLY CRC_CCITT_LENGTH (CrcCcittTypeToBytes s) d d.length
      (CrcCcittTypeToBytes s)) (R16 s d) := by
  have h0 := rep16_toBytes s hs
  obtain ⟨a, b, ha, hb, hc, hr⟩ := h0
  rw [hc, Crc_ccitt_eq_foldl]
  exact rep16_foldl d ⟨a, b, ha, hb, rfl, hr⟩ hd

theorem CrcCcitt_eq_R16 (s : Nat) (hs : s < 2 ^ 16) (d : List Nat) (hd : IsBytes d) :
    CrcCcitt d d.length s = R16 s d :=
  rep16_bytesTo (rep16_Crc s hs d hd)

theorem R16_lt (s : Nat) (hs : s < 2 ^ 16) (d : List Nat) (hd : IsBytes d) : R16 s d < 2 ^ 16 :=
  rep16_lt (rep16_Crc s hs d hd)

theorem R16_append (s : Nat) (d1 d2 : List Nat) : R16 s (d1 ++ d2) = R16 (R16 s d1) d2 := by
  simp [R16, List.foldl_append]

theorem isBytes_append {d1 d2 : List Nat} (h1 : IsBytes d1) (h2 : IsBytes d2) :
    IsBytes (d1 ++ d2) := by
  intro x hx
  rcases List.mem_append.1 hx with h | h
  · exact h1 x h
  · exact h2 x h


/-! ## The CRC-32 codec and engine on well-formed registers -/

theorem bytesToCrc32_quad (a b c d : Nat) (ha : a < 256) (hb : b < 256) (hc : c < 256)
    (hd : d < 256) :
    BytesToCrc32Type [a, b, c, d] = 2 ^ 8 * (2 ^ 8 * (2 ^ 8 * a + b) + c) + d := by
  simp only [BytesToCrc32Type, List.getD_cons_zero, List.getD_cons_succ, ONE_BYTE, TWO_BYTES,
    THREE_BYTES, BITS_PER_BYTE, BYTE_0, BYTE_1, BYTE_2, BYTE_3]
  rw [shl24_mask_byte a ha, shl16_mask_byte b hb, shl8_mask_byte c hc, mask_byte,
    Nat.mod_eq_of_lt hd, Nat.or_assoc, Nat.or_assoc, or_pack 8 c d hd,
    or_pack 16 b _ (by omega), or_pack 24 a _ (by omega)]
  omega

theorem crc32ToBytes_quad (a b c d : Nat) (ha : a < 256) (hb : b < 256) (hc : c < 256)
    (hd : d < 256) :
    Crc32TypeToBytes (2 ^ 8 * (2 ^ 8 * (2 ^ 8 * a + b) + c) + d) = [a, b, c, d] := by
  simp only [Crc32TypeToBytes, ONE_BYTE, TWO_BYTES, THREE_BYTES, BITS_PER_BYTE, BYTE_0]
  rw [shr_mask_byte, shr_mask_byte, shr_mask_byte, mask_byte]
  have h1 : (2 ^ 8 * (2 ^ 8 * (2 ^ 8 * a + b) + c) + d) / 2 ^ (3 * 8) % 256 = a := by omega
  have h2 : (2 ^ 8 * (2 ^ 8 * (2 ^ 8 * a + b) + c) + d) / 2 ^ (2 * 8) % 256 = b := by omega
  have h3 : (2 ^ 8 * (2 ^ 8 * (2 ^ 8 * a + b) + c) + d) / 2 ^ 8 % 256 = c := by omega
  have h4 : (2 ^ 8 * (2 ^ 8 * (2 ^ 8 * a + b) + c) + d) % 256 = d := by omega
  rw [h1, h2, h3, h4]

theorem rep32_toBytes (s : Nat) (hs : s < 2 ^ 32) : Rep32 (Crc32TypeToBytes s) s := by
  refine ⟨s / 2 ^ 24, s / 2 ^ 16 % 256, s / 2 ^ 8 % 256, s % 256, by omega, by omega, by omega,
    by omega, ?_, by omega⟩
  simp only [Crc32TypeToBytes, ONE_BYTE, TWO_BYTES, THREE_BYTES, BITS_PER_BYTE, BYTE_0]
  rw [shr_mask_byte, shr_mask_byte, shr_mask_byte, mask_byte]
  congr 1
  omega

theorem rep32_bytesTo {c : List Nat} {r : Nat} (h : Rep32 c r) : BytesToCrc32Type c = r := by
  obtain ⟨a, b, c2, d, ha, hb, hc, hd, rfl, rfl⟩ := h
  exact bytesToCrc32_quad a b c2 d ha hb hc hd

theorem rep32_toBytes_eq {c : List Nat} {r : Nat} (h : Rep32 c r) : Crc32TypeToBytes r = c := by
  obtain ⟨a, b, c2, d, ha, hb, hc, hd, rfl, rfl⟩ := h
  exact crc32ToBytes_quad a b c2 d ha hb hc hd

theorem rep32_lt {c : List Nat} {r : Nat} (h : Rep32 c r) : r < 2 ^ 32 := by
  obtain ⟨a, b, c2, d, ha, hb, hc, hd, rfl, rfl⟩ := h
  omega

theorem bitStep_crc32_quad (a b c d : Nat) :
    bitStep CRC_32_POLY CRC_32_LENGTH [a, b, c, d] =
      if (a &&& 0x80) ≠ 0 then
        [(((a <<< 1) &&& 0xff) ||| ((b &&& 0x80) >>> 7)) ^^^ 0xed,
         (((b <<< 1) &&& 0xff) ||| ((c &&& 0x80) >>> 7)) ^^^ 0xb8,
         (((c <<< 1) &&& 0xff) ||| ((d &&& 0x80) >>> 7)) ^^^ 0x83,
         ((d <<< 1) &&& 0xff) ^^^ 0x20]
      else
        [((a <<< 1) &&& 0xff) ||| ((b &&& 0x80) >>> 7),
         ((b <<< 1) &&& 0xff) ||| ((c &&& 0x80) >>> 7),
         ((c <<< 1) &&& 0xff) ||| ((d &&& 0x80) >>> 7),
         (d <<< 1) &&& 0xff] := by
  simp [bitStep, CRC_32_POLY, CRC_32_LENGTH, shiftXorByte, shiftByte, MSB, BITS_PER_BYTE,
    List.range, List.range.loop]

theorem shift_or_byte (a b : Nat) (hb : b < 256) :
    (2 * a % 256) ||| (b / 128) = 2 * a % 256 + b / 128 := by
  have h1 : 2 * a % 256 = 2 ^ 1 * (a % 128) := by omega
  rw [h1]
  exact or_pack 1 _ _ (by omega)

theorem rep32_bitStep {c : List Nat} {r : Nat} (h : Rep32 c r) :
    Rep32 (bitStep CRC_32_POLY CRC_32_LENGTH c) (reg32Bit r) := by
  obtain ⟨a, b, c2, d, ha, hb, hc, hd, rfl, rfl⟩ := h
  have hr : 2 ^ 8 * (2 ^ 8 * (2 ^ 8 * a + b) + c2) + d < 2 ^ (31 + 1) := by omega
  rw [bitStep_crc32_quad, reg32Bit, testBit_top 31 _ hr,
    shl_mask_byte, shl_mask_byte, shl_mask_byte, shl_mask_byte, msb_shift_byte b hb,
    msb_shift_byte c2 hc, msb_shift_byte d hd, Nat.shiftLeft_eq,
    shift_or_byte a b hb, shift_or_byte b c2 hc, shift_or_byte c2 d hd]
  have hsh : (2 ^ 8 * (2 ^ 8 * (2 ^ 8 * a + b) + c2) + d) * 2 ^ 1 % 2 ^ 32
      = 2 ^ 8 * (2 ^ 8 * (2 ^ 8 * (2 * a % 256 + b / 128) + (2 * b % 256 + c2 / 128))
          + (2 * c2 % 256 + d / 128)) + 2 * d % 256 := by
    omega
  rw [hsh]
  by_cases hm : 128 ≤ a
  · have hm2 : 2 ^ 31 ≤ 2 ^ 8 * (2 ^ 8 * (2 ^ 8 * a + b) + c2) + d := by omega
    rw [if_pos ((msb_ne_zero_byte a ha).2 hm), decide_eq_true hm2, if_pos rfl]
    have hp : (0xEDB88320 : Nat) = 2 ^ 8 * (2 ^ 8 * (2 ^ 8 * 0xed + 0xb8) + 0x83) + 0x20 := by
      norm_num
    rw [hp, xor_pack 8 _ _ _ _ (by omega) (by norm_num),
      xor_pack 8 _ _ _ _ (by omega) (by norm_num), xor_pack 8 _ _ _ _ (by omega) (by norm_num)]
    exact ⟨_, _, _, _, Nat.xor_lt_two_pow (n := 8) (by omega) (by norm_num),
      Nat.xor_lt_two_pow (n := 8) (by omega) (by norm_num),
      Nat.xor_lt_two_pow (n := 8) (by omega) (by norm_num),
      Nat.xor_lt_two_pow (n := 8) (by omega) (by norm_num), rfl, rfl⟩
  · have hm2 : ¬ 2 ^ 31 ≤ 2 ^ 8 * (2 ^ 8 * (2 ^ 8 * a + b) + c2) + d := by omega
    rw [if_neg (fun hc0 => hm ((msb_ne_zero_byte a ha).1 hc0)), decide_eq_false hm2,
      if_neg Bool.false_ne_true]
    exact ⟨_, _, _, _, by omega, by omega, by omega, by omega, rfl, rfl⟩


theorem rep32_xor_data {c : List Nat} {r : Nat} (h : Rep32 c r) (x : Nat) (hx : x < 256) :
    Rep32 (c.set 0 (c.getD 0 0 ^^^ x)) (r ^^^ (x <<< 24)) := by
  obtain ⟨a, b, c2, d, ha, hb, hc, hd, rfl, rfl⟩ := h
  refine ⟨a ^^^ x, b, c2, d, Nat.xor_lt_two_pow (n := 8) ha hx, hb, hc, hd, by simp, ?_⟩
  have hx24 : x <<< 24 = 2 ^ 8 * (2 ^ 8 * (2 ^ 8 * x + 0) + 0) + 0 := by
    rw [Nat.shiftLeft_eq]; ring
  rw [hx24, xor_pack 8 _ _ _ _ hd (by norm_num), xor_pack 8 _ _ _ _ hc (by norm_num),
    xor_pack 8 _ _ _ _ hb (by norm_num)]
  simp

theorem rep32_iterate {c : List Nat} {r : Nat} (n : Nat) (h : Rep32 c r) :
    Rep32 ((List.range n).foldl (fun c _ => bitStep CRC_32_POLY CRC_32_LENGTH c) c)
      (reg32Bit^[n] r) := by
  induction n generalizing c r with
  | zero => simpa using h
  | succ n ih =>
    rw [List.range_succ, List.foldl_append, Function.iterate_succ_apply']
    exact rep32_bitStep (ih h)

theorem rep32_byteStep {c : List Nat} {r : Nat} (h : Rep32 c r) (x : Nat) (hx : x < 256) :
    Rep32 (byteStep CRC_32_POLY CRC_32_LENGTH c x) (reg32Byte r x) :=
  rep32_iterate 8 (rep32_xor_data h x hx)

theorem rep32_foldl {c : List Nat} {r : Nat} (d : List Nat) (h : Rep32 c r) (hd : IsBytes d) :
    Rep32 (d.foldl (byteStep CRC_32_POLY CRC_32_LENGTH) c) (R32 r d) := by
  induction d generalizing c r with
  | nil => simpa [R32] using h
  | cons x t ih =>
    have hx : x < 256 := hd x (List.mem_cons_self x t)
    have ht : IsBytes t := fun y hy => hd y (List.mem_cons_of_mem x hy)
    simpa [R32] using ih (rep32_byteStep h x hx) ht

theorem Crc_crc32_eq_foldl (a b c d : Nat) (data : List Nat) :
    Crc CRC_32_POLY CRC_32_LENGTH [a, b, c, d] data data.length [a, b, c, d]
      = data.foldl (byteStep CRC_32_POLY CRC_32_LENGTH) [a, b, c, d] := by
  have hload : (List.range CRC_32_LENGTH).foldl
      (fun c0 crcIndex => c0.set crcIndex (([a, b, c, d] : List Nat).getD crcIndex 0))
      [a, b, c, d] = [a, b, c, d] := by
    simp [CRC_32_LENGTH, List.range, List.range.loop]
  unfold Crc
  simp only [hload]
  exact foldl_range_getD (byteStep CRC_32_POLY CRC_32_LENGTH) data [a, b, c, d]

theorem rep32_Crc (s : Nat) (hs : s < 2 ^ 32) (d : List Nat) (hd : IsBytes d) :
    Rep32 (Crc CRC_32_POLY CRC_32_LENGTH (Crc32TypeToBytes s) d d.length
      (Crc32TypeToBytes s)) (R32 s d) := by
  have h0 := rep32_toBytes s hs
  obtain ⟨a, b, c2, e, ha, hb, hc, he, hl, hr⟩ := h0
  rw [hl, Crc_crc32_eq_foldl]
  exact rep32_foldl d ⟨a, b, c2, e, ha, hb, hc, he, rfl, hr⟩ hd

theorem Crc32_eq_R32 (s : Nat) (hs : s < 2 ^ 32) (d : List Nat) (hd : IsBytes d) :
    Crc32 d d.length s = R32 s d :=
  rep32_bytesTo (rep32_Crc s hs d hd)

theorem R32_lt (s : Nat) (hs : s < 2 ^ 32) (d : List Nat) (hd : IsBytes d) : R32 s d < 2 ^ 32 :=
  rep32_lt (rep32_Crc s hs d hd)

theorem R32_append (s : Nat) (d1 d2 : List Nat) : R32 s (d1 ++ d2) = R32 (R32 s d1) d2 := by
  simp [R32, List.foldl_append]

/-! ## Linearity of the register steps over XOR -/

theorem ite_xor_bool (p q : Bool) (c : Nat) :
    (if (p ^^ q) = true then c else 0) = (if p = true then c else 0) ^^^ (if q = true then c else 0) := by
  cases p <;> cases q <;> simp

theorem reg16Bit_eq (r : Nat) :
    reg16Bit r = ((r <<< 1) % 2 ^ 16) ^^^ (if r.testBit 15 = true then 0x1021 else 0) := by
  unfold reg16Bit
  split <;> simp

theorem reg32Bit_eq (r : Nat) :
    reg32Bit r = ((r <<< 1) % 2 ^ 32) ^^^ (if r.testBit 31 = true then 0xEDB88320 else 0) := by
  unfold reg32Bit
  split <;> simp

theorem xor_xor_xor_comm (a b c d : Nat) : (a ^^^ b) ^^^ (c ^^^ d) = (a ^^^ c) ^^^ (b ^^^ d) := by
  rw [Nat.xor_assoc, Nat.xor_assoc, ← Nat.xor_assoc b c d, Nat.xor_comm b c, Nat.xor_assoc c b d]

theorem reg16Bit_xor (r e : Nat) : reg16Bit (r ^^^ e) = reg16Bit r ^^^ reg16Bit e := by
  rw [reg16Bit_eq, reg16Bit_eq, reg16Bit_eq, xor_shl, xor_mod_pow, Nat.testBit_xor, ite_xor_bool,
    xor_xor_xor_comm]

theorem reg32Bit_xor (r e : Nat) : reg32Bit (r ^^^ e) = reg32Bit r ^^^ reg32Bit e := by
  rw [reg32Bit_eq, reg32Bit_eq, reg32Bit_eq, xor_shl, xor_mod_pow, Nat.testBit_xor, ite_xor_bool,
    xor_xor_xor_comm]

theorem iterate_xor (f : Nat → Nat) (hf : ∀ r e, f (r ^^^ e) = f r ^^^ f e) (n r e : Nat) :
    f^[n] (r ^^^ e) = f^[n] r ^^^ f^[n] e := by
  induction n generalizing r e with
  | zero => rfl
  | succ n ih => rw [Function.iterate_succ_apply, hf, ih, Function.iterate_succ_apply,
      Function.iterate_succ_apply]

theorem reg16Byte_xor (r e b : Nat) : reg16Byte (r ^^^ e) b = reg16Byte r b ^^^ reg16Bit^[8] e := by
  unfold reg16Byte
  rw [Nat.xor_assoc, Nat.xor_comm e, ← Nat.xor_assoc, iterate_xor reg16Bit reg16Bit_xor]

theorem reg32Byte_xor (r e b : Nat) : reg32Byte (r ^^^ e) b = reg32Byte r b ^^^ reg32Bit^[8] e := by
  unfold reg32Byte
  rw [Nat.xor_assoc, Nat.xor_comm e, ← Nat.xor_assoc, iterate_xor reg32Bit reg32Bit_xor]


/-! ## Differences that never vanish -/

theorem xor_ne_self (r e : Nat) (he : e ≠ 0) : r ^^^ e ≠ r := by
  intro h
  apply he
  have h2 : r ^^^ (r ^^^ e) = r ^^^ r := by rw [h]
  rwa [Nat.xor_cancel_left, Nat.xor_self] at h2

theorem reg16Bit_lt (e : Nat) : reg16Bit e < 2 ^ 16 := by
  rw [reg16Bit_eq]
  apply Nat.xor_lt_two_pow (Nat.mod_lt _ (by norm_num))
  split <;> norm_num

theorem reg32Bit_lt (e : Nat) : reg32Bit e < 2 ^ 32 := by
  rw [reg32Bit_eq]
  apply Nat.xor_lt_two_pow (Nat.mod_lt _ (by norm_num))
  split <;> norm_num

theorem reg16Bit_ne_zero (e : Nat) (h0 : e ≠ 0) (hlt : e < 2 ^ 16) : reg16Bit e ≠ 0 := by
  have hlt2 : e < 2 ^ (15 + 1) := hlt
  unfold reg16Bit
  rw [testBit_top 15 e hlt2, Nat.shiftLeft_eq]
  by_cases hm : 2 ^ 15 ≤ e
  · rw [decide_eq_true hm, if_pos rfl]
    intro hz
    have := Nat.xor_eq_zero.1 hz
    omega
  · rw [decide_eq_false hm, if_neg Bool.false_ne_true]
    omega

theorem reg32Bit_ne_zero (e : Nat) (h0 : e ≠ 0) (hlt : e < 2 ^ 32) (h32 : e % 32 = 0) :
    reg32Bit e ≠ 0 := by
  have hlt2 : e < 2 ^ (31 + 1) := hlt
  unfold reg32Bit
  rw [testBit_top 31 e hlt2, Nat.shiftLeft_eq]
  by_cases hm : 2 ^ 31 ≤ e
  · rw [decide_eq_true hm, if_pos rfl]
    intro hz
    have := Nat.xor_eq_zero.1 hz
    omega
  · rw [decide_eq_false hm, if_neg Bool.false_ne_true]
    omega

theorem reg32Bit_mod (e : Nat) (h32 : e % 32 = 0) : reg32Bit e % 32 = 0 := by
  have h := xor_mod_pow 5 ((e <<< 1) % 2 ^ 32) (if e.testBit 31 = true then 0xEDB88320 else 0)
  rw [reg32Bit_eq]
  have h1 : (e <<< 1) % 2 ^ 32 % 2 ^ 5 = 0 := by
    rw [Nat.shiftLeft_eq]; omega
  have h2 : (if e.testBit 31 = true then 0xEDB88320 else 0) % 2 ^ 5 = 0 := by
    split <;> norm_num
  rw [h1, h2] at h
  exact h

theorem live16_iterate (n e : Nat) (h : Live16 e) : Live16 (reg16Bit^[n] e) := by
  induction n generalizing e with
  | zero => exact h
  | succ n ih =>
    rw [Function.iterate_succ_apply]
    exact ih _ ⟨reg16Bit_ne_zero e h.1 h.2, reg16Bit_lt e⟩

theorem live32_iterate (n e : Nat) (h : Live32 e) : Live32 (reg32Bit^[n] e) := by
  induction n generalizing e with
  | zero => exact h
  | succ n ih =>
    rw [Function.iterate_succ_apply]
    exact ih _ ⟨reg32Bit_ne_zero e h.1 h.2.1 h.2.2, reg32Bit_lt e, reg32Bit_mod e h.2.2⟩

theorem R16_xor_ne (t : List Nat) (r e : Nat) (h : Live16 e) : R16 (r ^^^ e) t ≠ R16 r t := by
  induction t generalizing r e with
  | nil => exact xor_ne_self r e h.1
  | cons y t ih =>
    simp only [R16, List.foldl_cons]
    rw [reg16Byte_xor]
    exact ih _ _ (live16_iterate 8 e h)

theorem R32_xor_ne (t : List Nat) (r e : Nat) (h : Live32 e) : R32 (r ^^^ e) t ≠ R32 r t := by
  induction t generalizing r e with
  | nil => exact xor_ne_self r e h.1
  | cons y t ih =>
    simp only [R32, List.foldl_cons]
    rw [reg32Byte_xor]
    exact ih _ _ (live32_iterate 8 e h)

theorem live16_bit (j : Nat) (hj : j < 8) : Live16 ((1 <<< j) <<< 8) := by
  interval_cases j <;> exact ⟨by decide, by decide⟩

theorem live32_bit (j : Nat) (hj : j < 8) : Live32 ((1 <<< j) <<< 24) := by
  interval_cases j <;> exact ⟨by decide, by decide, by decide⟩

theorem flipBit_zero (x : Nat) (t : List Nat) (j : Nat) :
    flipBit (x :: t) 0 j = (x ^^^ (1 <<< j)) :: t := by
  simp [flipBit]

theorem flipBit_succ (x : Nat) (t : List Nat) (i j : Nat) :
    flipBit (x :: t) (i + 1) j = x :: flipBit t i j := by
  simp [flipBit]

theorem R16_flipBit_ne (d : List Nat) (i j s : Nat) (hi : i < d.length) (hj : j < 8) :
    R16 s (flipBit d i j) ≠ R16 s d := by
  induction d generalizing i s with
  | nil => simp at hi
  | cons x t ih =>
    cases i with
    | zero =>
      rw [flipBit_zero]
      simp only [R16, List.foldl_cons]
      have hb : reg16Byte s (x ^^^ (1 <<< j)) = reg16Byte s x ^^^ reg16Bit^[8] ((1 <<< j) <<< 8) := by
        unfold reg16Byte
        rw [xor_shl, ← Nat.xor_assoc, iterate_xor reg16Bit reg16Bit_xor]
      rw [hb]
      exact R16_xor_ne t _ _ (live16_iterate 8 _ (live16_bit j hj))
    | succ k =>
      rw [flipBit_succ]
      simp only [R16, List.foldl_cons]
      exact ih k _ (by simpa using hi)

theorem R32_flipBit_ne (d : List Nat) (i j s : Nat) (hi : i < d.length) (hj : j < 8) :
    R32 s (flipBit d i j) ≠ R32 s d := by
  induction d generalizing i s with
  | nil => simp at hi
  | cons x t ih =>
    cases i with
    | zero =>
      rw [flipBit_zero]
      simp only [R32, List.foldl_cons]
      have hb : reg32Byte s (x ^^^ (1 <<< j)) = reg32Byte s x ^^^ reg32Bit^[8] ((1 <<< j) <<< 24) := by
        unfold reg32Byte
        rw [xor_shl, ← Nat.xor_assoc, iterate_xor reg32Bit reg32Bit_xor]
      rw [hb]
      exact R32_xor_ne t _ _ (live32_iterate 8 _ (live32_bit j hj))
    | succ k =>
      rw [flipBit_succ]
      simp only [R32, List.foldl_cons]
      exact ih k _ (by simpa using hi)

theorem flipBit_length (d : List Nat) (i j : Nat) : (flipBit d i j).length = d.length := by
  simp [flipBit]

theorem flipBit_isBytes (d : List Nat) (i j : Nat) (hd : IsBytes d) (hj : j < 8) :
    IsBytes (flipBit d i j) := by
  intro x hx
  unfold flipBit at hx
  rcases List.mem_or_eq_of_mem_set hx with h | h
  · exact hd x h
  · rw [h]
    have h1 : d.getD i 0 < 2 ^ 8 := by
      by_cases hi : i < d.length
      · rw [List.getD_eq_getElem d 0 hi]
        exact hd _ (List.getElem_mem hi)
      · rw [List.getD_eq_default d 0 (by omega)]
        norm_num
    have h2 : (1 <<< j) < 2 ^ 8 := by
      interval_cases j <;> decide
    exact Nat.xor_lt_two_pow h1 h2


theorem Crc_ccitt_zero_length (s : Nat) (data : List Nat) :
    Crc CRC_CCITT_POLY CRC_CCITT_LENGTH (CrcCcittTypeToBytes s) data 0 (CrcCcittTypeToBytes s)
      = CrcCcittTypeToBytes s := by
  simp [Crc, CrcCcittTypeToBytes, CRC_CCITT_LENGTH, List.range, List.range.loop]

theorem Crc_crc32_zero_length (s : Nat) (data : List Nat) :
    Crc CRC_32_POLY CRC_32_LENGTH (Crc32TypeToBytes s) data 0 (Crc32TypeToBytes s)
      = Crc32TypeToBytes s := by
  simp [Crc, Crc32TypeToBytes, CRC_32_LENGTH, List.range, List.range.loop]

theorem list_length_two {b : List Nat} (h : b.length = 2) : ∃ x y, b = [x, y] := by
  match b, h with
  | [x, y], _ => exact ⟨x, y, rfl⟩

theorem list_length_four {b : List Nat} (h : b.length = 4) : ∃ x y z w, b = [x, y, z, w] := by
  match b, h with
  | [x, y, z, w], _ => exact ⟨x, y, z, w, rfl⟩

/-! ## The claims -/

/-- Claim C1: seed chaining for CCITT. For a 16-bit seed and two byte buffers
whose lengths sum to at most 65535, the checksum of the concatenation equals
the checksum of the second buffer seeded with the checksum of the first. -/
theorem CrcCcitt_seed_chaining (s : Nat) (d1 d2 : List Nat) (hs : s < 2 ^ 16)
    (h1 : IsBytes d1) (h2 : IsBytes d2) (_hlen : d1.length + d2.length ≤ 65535) :
    CrcCcitt (d1 ++ d2) (d1.length + d2.length) s
      = CrcCcitt d2 d2.length (CrcCcitt d1 d1.length s) := by
  rw [← List.length_append, CrcCcitt_eq_R16 s hs _ (isBytes_append h1 h2),
    CrcCcitt_eq_R16 s hs d1 h1, CrcCcitt_eq_R16 _ (R16_lt s hs d1 h1) d2 h2, R16_append]

/-- Witness for C1 at seed `0xFFFF` and the buffers `[0x31, 0x32]`, `[0x33]`. -/
theorem CrcCcitt_seed_chaining_witness :
    (0xFFFF < 2 ^ 16 ∧ IsBytes [0x31, 0x32] ∧ IsBytes [0x33] ∧
      ([0x31, 0x32] : List Nat).length + ([0x33] : List Nat).length ≤ 65535) ∧
    CrcCcitt ([0x31, 0x32] ++ [0x33]) (([0x31, 0x32] : List Nat).length + ([0x33] : List Nat).length)
      0xFFFF = CrcCcitt [0x33] ([0x33] : List Nat).length
        (CrcCcitt [0x31, 0x32] ([0x31, 0x32] : List Nat).length 0xFFFF) :=
  ⟨⟨by decide, by decide, by decide, by decide⟩,
    CrcCcitt_seed_chaining 0xFFFF [0x31, 0x32] [0x33] (by decide) (by decide) (by decide)
      (by decide)⟩

/-- Claim C2: seed chaining for CRC-32. For a 32-bit seed and two byte buffers
whose lengths sum to at most 65535, the checksum of the concatenation equals
the checksum of the second buffer seeded with the checksum of the first. -/
theorem Crc32_seed_chaining (s : Nat) (d1 d2 : List Nat) (hs : s < 2 ^ 32)
    (h1 : IsBytes d1) (h2 : IsBytes d2) (_hlen : d1.length + d2.length ≤ 65535) :
    Crc32 (d1 ++ d2) (d1.length + d2.length) s
      = Crc32 d2 d2.length (Crc32 d1 d1.length s) := by
  rw [← List.length_append, Crc32_eq_R32 s hs _ (isBytes_append h1 h2),
    Crc32_eq_R32 s hs d1 h1, Crc32_eq_R32 _ (R32_lt s hs d1 h1) d2 h2, R32_append]

/-- Witness for C2 at seed `0xFFFFFFFF` and the buffers `[0x31, 0x32]`, `[0x33]`. -/
theorem Crc32_seed_chaining_witness :
    (0xFFFFFFFF < 2 ^ 32 ∧ IsBytes [0x31, 0x32] ∧ IsBytes [0x33] ∧
      ([0x31, 0x32] : List Nat).length + ([0x33] : List Nat).length ≤ 65535) ∧
    Crc32 ([0x31, 0x32] ++ [0x33]) (([0x31, 0x32] : List Nat).length + ([0x33] : List Nat).length)
      0xFFFFFFFF = Crc32 [0x33] ([0x33] : List Nat).length
        (Crc32 [0x31, 0x32] ([0x31, 0x32] : List Nat).length 0xFFFFFFFF) :=
  ⟨⟨by decide, by decide, by decide, by decide⟩,
    Crc32_seed_chaining 0xFFFFFFFF [0x31, 0x32] [0x33] (by decide) (by decide) (by decide)
      (by decide)⟩

/-- Claim C3: a zero-length input returns the seed unchanged, for every data
buffer, for every 16-bit seed of `CrcCcitt` and every 32-bit seed of `Crc32`. -/
theorem zero_length_returns_seed (data : List Nat) (s16 s32 : Nat) (h16 : s16 < 2 ^ 16)
    (h32 : s32 < 2 ^ 32) :
    CrcCcitt data 0 s16 = s16 ∧ Crc32 data 0 s32 = s32 := by
  constructor
  · unfold CrcCcitt
    simp only [Crc_ccitt_zero_length]
    exact rep16_bytesTo (rep16_toBytes s16 h16)
  · unfold Crc32
    simp only [Crc_crc32_zero_length]
    exact rep32_bytesTo (rep32_toBytes s32 h32)

/-- Witness for C3 at the buffer `[0xAB, 0xCD]` and the all-ones seeds. -/
theorem zero_length_returns_seed_witness :
    (0xFFFF < 2 ^ 16 ∧ 0xFFFFFFFF < 2 ^ 32) ∧
    CrcCcitt [0xAB, 0xCD] 0 0xFFFF = 0xFFFF ∧ Crc32 [0xAB, 0xCD] 0 0xFFFFFFFF = 0xFFFFFFFF :=
  ⟨⟨by decide, by decide⟩,
    zero_length_returns_seed [0xAB, 0xCD] 0xFFFF 0xFFFFFFFF (by decide) (by decide)⟩

/-- Claim C4: integer to bytes to integer is the identity, for every 16-bit
value through the CCITT codec and every 32-bit value through the CRC-32 codec. -/
theorem integer_bytes_round_trip (v16 v32 : Nat) (h16 : v16 < 2 ^ 16) (h32 : v32 < 2 ^ 32) :
    BytesToCrcCcittType (CrcCcittTypeToBytes v16) = v16 ∧
    BytesToCrc32Type (Crc32TypeToBytes v32) = v32 :=
  ⟨rep16_bytesTo (rep16_toBytes v16 h16), rep32_bytesTo (rep32_toBytes v32 h32)⟩

/-- Witness for C4 at `0x1D0F` and `0xEDB88320`. -/
theorem integer_bytes_round_trip_witness :
    (0x1D0F < 2 ^ 16 ∧ 0xEDB88320 < 2 ^ 32) ∧
    BytesToCrcCcittType (CrcCcittTypeToBytes 0x1D0F) = 0x1D0F ∧
    BytesToCrc32Type (Crc32TypeToBytes 0xEDB88320) = 0xEDB88320 :=
  ⟨⟨by decide, by decide⟩, integer_bytes_round_trip 0x1D0F 0xEDB88320 (by decide) (by decide)⟩

/-- Claim C5: bytes to integer to bytes is the identity, for every 2-byte
sequence through the CCITT codec and every 4-byte sequence through the CRC-32
codec. -/
theorem bytes_integer_round_trip (b2 b4 : List Nat) (hl2 : b2.length = 2) (hb2 : IsBytes b2)
    (hl4 : b4.length = 4) (hb4 : IsBytes b4) :
    CrcCcittTypeToBytes (BytesToCrcCcittType b2) = b2 ∧
    Crc32TypeToBytes (BytesToCrc32Type b4) = b4 := by
  obtain ⟨x, y, rfl⟩ := list_length_two hl2
  obtain ⟨p, q, r, t, rfl⟩ := list_length_four hl4
  have hx : x < 256 := hb2 x (by simp)
  have hy : y < 256 := hb2 y (by simp)
  have hp : p < 256 := hb4 p (by simp)
  have hq : q < 256 := hb4 q (by simp)
  have hr : r < 256 := hb4 r (by simp)
  have ht : t < 256 := hb4 t (by simp)
  constructor
  · rw [bytesToCcitt_pair x y hx hy, ccittToBytes_pair x y hx hy]
  · rw [bytesToCrc32_quad p q r t hp hq hr ht, crc32ToBytes_quad p q r t hp hq hr ht]

/-- Witness for C5 at `[0x10, 0x21]` and `[0xed, 0xb8, 0x83, 0x20]`. -/
theorem bytes_integer_round_trip_witness :
    (([0x10, 0x21] : List Nat).length = 2 ∧ IsBytes [0x10, 0x21] ∧
      ([0xed, 0xb8, 0x83, 0x20] : List Nat).length = 4 ∧ IsBytes [0xed, 0xb8, 0x83, 0x20]) ∧
    CrcCcittTypeToBytes (BytesToCrcCcittType [0x10, 0x21]) = [0x10, 0x21] ∧
    Crc32TypeToBytes (BytesToCrc32Type [0xed, 0xb8, 0x83, 0x20]) = [0xed, 0xb8, 0x83, 0x20] :=
  ⟨⟨by decide, by decide, by decide, by decide⟩,
    bytes_integer_round_trip [0x10, 0x21] [0xed, 0xb8, 0x83, 0x20] (by decide) (by decide)
      (by decide) (by decide)⟩


/-- Claim C6: the codec is big-endian. The four bytes written for a 32-bit value
`v` are `[b0, b1, b2, b3]` with `v = b0*2^24 + b1*2^16 + b2*2^8 + b3`, the two
bytes written for a 16-bit value `v` are `[b0, b1]` with `v = b0*2^8 + b1`, and
every byte is below 256. -/
theorem codec_big_endian (v32 v16 : Nat) (h32 : v32 < 2 ^ 32) (h16 : v16 < 2 ^ 16) :
    (∃ b0 b1 b2 b3, Crc32TypeToBytes v32 = [b0, b1, b2, b3] ∧
      v32 = b0 * 2 ^ 24 + b1 * 2 ^ 16 + b2 * 2 ^ 8 + b3 ∧
      b0 < 256 ∧ b1 < 256 ∧ b2 < 256 ∧ b3 < 256) ∧
    (∃ b0 b1, CrcCcittTypeToBytes v16 = [b0, b1] ∧ v16 = b0 * 2 ^ 8 + b1 ∧
      b0 < 256 ∧ b1 < 256) := by
  obtain ⟨a, b, c, d, ha, hb, hc, hd, hl, hr⟩ := rep32_toBytes v32 h32
  obtain ⟨x, y, hx, hy, hl2, hr2⟩ := rep16_toBytes v16 h16
  exact ⟨⟨a, b, c, d, hl, by omega, ha, hb, hc, hd⟩, ⟨x, y, hl2, by omega, hx, hy⟩⟩

/-- Witness for C6 at `0xEDB88320` and `0x1021`. -/
theorem codec_big_endian_witness :
    (0xEDB88320 < 2 ^ 32 ∧ 0x1021 < 2 ^ 16) ∧
    ((∃ b0 b1 b2 b3, Crc32TypeToBytes 0xEDB88320 = [b0, b1, b2, b3] ∧
      0xEDB88320 = b0 * 2 ^ 24 + b1 * 2 ^ 16 + b2 * 2 ^ 8 + b3 ∧
      b0 < 256 ∧ b1 < 256 ∧ b2 < 256 ∧ b3 < 256) ∧
    (∃ b0 b1, CrcCcittTypeToBytes 0x1021 = [b0, b1] ∧ 0x1021 = b0 * 2 ^ 8 + b1 ∧
      b0 < 256 ∧ b1 < 256)) :=
  ⟨⟨by decide, by decide⟩, codec_big_endian 0xEDB88320 0x1021 (by decide) (by decide)⟩

/-- Claim C7: the 16-bit convenience wrapper is the CCITT function on the packed
value: for 16-bit `v` and `s`, `initCRC_16bit v s` equals `CrcCcitt` of the two
bytes `(v >> 8) & 0xFF`, `v & 0xFF` with length 2 and seed `s`. -/
theorem initCRC_16bit_eq_CrcCcitt (v s : Nat) (_hv : v < 2 ^ 16) (_hs : s < 2 ^ 16) :
    initCRC_16bit v s = CrcCcitt [(v >>> 8) &&& 0xFF, v &&& 0xFF] 2 s := by
  unfold initCRC_16bit
  rfl

/-- Witness for C7 at the value `0x1234` and the seed `0xFFFF`. -/
theorem initCRC_16bit_eq_CrcCcitt_witness :
    (0x1234 < 2 ^ 16 ∧ 0xFFFF < 2 ^ 16) ∧
    initCRC_16bit 0x1234 0xFFFF = CrcCcitt [(0x1234 >>> 8) &&& 0xFF, 0x1234 &&& 0xFF] 2 0xFFFF :=
  ⟨⟨by decide, by decide⟩, initCRC_16bit_eq_CrcCcitt 0x1234 0xFFFF (by decide) (by decide)⟩

/-- Claim C8: known vector for CCITT. The checksum of `[0x00, 0x00]` with seed
`0xFFFF` is `0x1D0F`, which is also what sixteen MSB-first shift steps by the
polynomial `0x1021` give on a 16-bit register starting at `0xFFFF`. -/
theorem CrcCcitt_known_vector :
    CrcCcitt [0x00, 0x00] 2 0xFFFF = 0x1D0F ∧ reg16Bit^[16] 0xFFFF = 0x1D0F := by
  constructor
  · decide
  · decide

/-- Claim C9: a single-bit flip always changes the CCITT checksum. For a 16-bit
seed, a byte buffer `d` of length `n` with `1 ≤ n ≤ 65535`, a byte index `i < n`
and a bit position `j < 8`, the checksum of `d` with bit `j` of byte `i`
inverted differs from the checksum of `d`. -/
theorem CrcCcitt_single_bit_flip (s : Nat) (d : List Nat) (n i j : Nat) (hs : s < 2 ^ 16)
    (hd : IsBytes d) (hn : d.length = n) (_h1 : 1 ≤ n) (_hmax : n ≤ 65535) (hi : i < n)
    (hj : j < 8) :
    CrcCcitt (flipBit d i j) n s ≠ CrcCcitt d n s := by
  subst hn
  have hf := CrcCcitt_eq_R16 s hs (flipBit d i j) (flipBit_isBytes d i j hd hj)
  rw [flipBit_length] at hf
  rw [hf, CrcCcitt_eq_R16 s hs d hd]
  exact R16_flipBit_ne d i j s hi hj

/-- Witness for C9: bit 3 of byte 1 of `[0x00, 0x00]`, seed `0xFFFF`. -/
theorem CrcCcitt_single_bit_flip_witness :
    (0xFFFF < 2 ^ 16 ∧ IsBytes [0x00, 0x00] ∧ ([0x00, 0x00] : List Nat).length = 2 ∧
      1 ≤ 2 ∧ 2 ≤ 65535 ∧ 1 < 2 ∧ 3 < 8) ∧
    CrcCcitt (flipBit [0x00, 0x00] 1 3) 2 0xFFFF ≠ CrcCcitt [0x00, 0x00] 2 0xFFFF :=
  ⟨⟨by decide, by decide, by decide, by decide, by decide, by decide, by decide⟩,
    CrcCcitt_single_bit_flip 0xFFFF [0x00, 0x00] 2 1 3 (by decide) (by decide) (by decide)
      (by decide) (by decide) (by decide) (by decide)⟩

/-- Claim C10: a single-bit flip always changes the CRC-32 checksum. For a 32-bit
seed, a byte buffer `d` of length `n` with `1 ≤ n ≤ 65535`, a byte index `i < n`
and a bit position `j < 8`, the checksum of `d` with bit `j` of byte `i`
inverted differs from the checksum of `d`. -/
theorem Crc32_single_bit_flip (s : Nat) (d : List Nat) (n i j : Nat) (hs : s < 2 ^ 32)
    (hd : IsBytes d) (hn : d.length = n) (_h1 : 1 ≤ n) (_hmax : n ≤ 65535) (hi : i < n)
    (hj : j < 8) :
    Crc32 (flipBit d i j) n s ≠ Crc32 d n s := by
  subst hn
  have hf := Crc32_eq_R32 s hs (flipBit d i j) (flipBit_isBytes d i j hd hj)
  rw [flipBit_length] at hf
  rw [hf, Crc32_eq_R32 s hs d hd]
  exact R32_flipBit_ne d i j s hi hj

/-- Witness for C10: bit 0 of byte 3 of `[0x0F, 0x6D, 0xC4, 0x19]`, seed `0`. -/
theorem Crc32_single_bit_flip_witness :
    (0 < 2 ^ 32 ∧ IsBytes [0x0F, 0x6D, 0xC4, 0x19] ∧
      ([0x0F, 0x6D, 0xC4, 0x19] : List Nat).length = 4 ∧
      1 ≤ 4 ∧ 4 ≤ 65535 ∧ 3 < 4 ∧ 0 < 8) ∧
    Crc32 (flipBit [0x0F, 0x6D, 0xC4, 0x19] 3 0) 4 0 ≠ Crc32 [0x0F, 0x6D, 0xC4, 0x19] 4 0 :=
  ⟨⟨by decide, by decide, by decide, by decide, by decide, by decide, by decide⟩,
    Crc32_single_bit_flip 0 [0x0F, 0x6D, 0xC4, 0x19] 4 3 0 (by decide) (by decide) (by decide)
      (by decide) (by decide) (by decide) (by decide)⟩


/-- Claim C11: the byte-array CCITT engine equals the native 16-bit register
formulation. For a 16-bit seed `s` and a byte buffer `d` of length `n ≤ 65535`,
`CrcCcitt d n s` is `R16 s d`, the fold that XORs each byte shifted left by 8
into the register and then makes eight shift-and-conditional-XOR steps with
`0x1021`. -/
theorem CrcCcitt_eq_native_register (s : Nat) (d : List Nat) (n : Nat) (hs : s < 2 ^ 16)
    (hd : IsBytes d) (hn : d.length = n) (_hmax : n ≤ 65535) :
    CrcCcitt d n s = R16 s d := by
  subst hn
  exact CrcCcitt_eq_R16 s hs d hd

/-- Witness for C11 at seed `0xFFFF` and the buffer `[0x31, 0x32, 0x33]`. -/
theorem CrcCcitt_eq_native_register_witness :
    (0xFFFF < 2 ^ 16 ∧ IsBytes [0x31, 0x32, 0x33] ∧ ([0x31, 0x32, 0x33] : List Nat).length = 3 ∧
      3 ≤ 65535) ∧
    CrcCcitt [0x31, 0x32, 0x33] 3 0xFFFF = R16 0xFFFF [0x31, 0x32, 0x33] :=
  ⟨⟨by decide, by decide, by decide, by decide⟩,
    CrcCcitt_eq_native_register 0xFFFF [0x31, 0x32, 0x33] 3 (by decide) (by decide) (by decide)
      (by decide)⟩

/-- Claim C12: the byte-array CRC-32 engine equals the native 32-bit register
formulation. For a 32-bit seed `s` and a byte buffer `d` of length `n ≤ 65535`,
`Crc32 d n s` is `R32 s d`, the fold that XORs each byte shifted left by 24
into the register and then makes eight shift-and-conditional-XOR steps with
`0xEDB88320`. -/
theorem Crc32_eq_native_register (s : Nat) (d : List Nat) (n : Nat) (hs : s < 2 ^ 32)
    (hd : IsBytes d) (hn : d.length = n) (_hmax : n ≤ 65535) :
    Crc32 d n s = R32 s d := by
  subst hn
  exact Crc32_eq_R32 s hs d hd

/-- Witness for C12 at seed `0xFFFFFFFF` and the buffer `[0x31, 0x32, 0x33]`. -/
theorem Crc32_eq_native_register_witness :
    (0xFFFFFFFF < 2 ^ 32 ∧ IsBytes [0x31, 0x32, 0x33] ∧
      ([0x31, 0x32, 0x33] : List Nat).length = 3 ∧ 3 ≤ 65535) ∧
    Crc32 [0x31, 0x32, 0x33] 3 0xFFFFFFFF = R32 0xFFFFFFFF [0x31, 0x32, 0x33] :=
  ⟨⟨by decide, by decide, by decide, by decide⟩,
    Crc32_eq_native_register 0xFFFFFFFF [0x31, 0x32, 0x33] 3 (by decide) (by decide) (by decide)
      (by decide)⟩

/-- Claim C14: the declared polynomial bytes are the ones the engine divides by.
With seed 0 and the single data byte `0x01`, `Crc32` returns `0xEDB88320` and
`CrcCcitt` returns `0x1021`. -/
theorem polynomial_bytes_are_the_divisor :
    Crc32 [0x01] 1 0 = 0xEDB88320 ∧ CrcCcitt [0x01] 1 0 = 0x1021 := by
  constructor
  · decide
  · decide

set_option maxRecDepth 100000 in
/-- Claim C19: `CrcCcitt` with seed `0xFFFF` gives the CRC-16/CCITT-FALSE check
value on the standard check string: the nine ASCII bytes of "123456789" have
checksum `0x29B1`. -/
theorem CrcCcitt_check_string :
    CrcCcitt [0x31, 0x32, 0x33, 0x34, 0x35, 0x36, 0x37, 0x38, 0x39] 9 0xFFFF = 0x29B1 := by
  decide


/-! ## Joint linearity in data and seed -/

theorem reg16Byte_xor_xor (r1 r2 b1 b2 : Nat) :
    reg16Byte (r1 ^^^ r2) (b1 ^^^ b2) = reg16Byte r1 b1 ^^^ reg16Byte r2 b2 := by
  unfold reg16Byte
  rw [xor_shl, xor_xor_xor_comm, iterate_xor reg16Bit reg16Bit_xor]

theorem reg32Byte_xor_xor (r1 r2 b1 b2 : Nat) :
    reg32Byte (r1 ^^^ r2) (b1 ^^^ b2) = reg32Byte r1 b1 ^^^ reg32Byte r2 b2 := by
  unfold reg32Byte
  rw [xor_shl, xor_xor_xor_comm, iterate_xor reg32Bit reg32Bit_xor]

theorem R16_xor (d1 d2 : List Nat) (s1 s2 : Nat) (hl : d1.length = d2.length) :
    R16 (s1 ^^^ s2) (xorBytes d1 d2) = R16 s1 d1 ^^^ R16 s2 d2 := by
  induction d1 generalizing d2 s1 s2 with
  | nil =>
    cases d2 with
    | nil => simp [R16, xorBytes]
    | cons y t => simp at hl
  | cons x t ih =>
    cases d2 with
    | nil => simp at hl
    | cons y u =>
      have hl2 : t.length = u.length := by simpa using hl
      have h := ih u (reg16Byte s1 x) (reg16Byte s2 y) hl2
      simp only [R16, xorBytes, List.zipWith_cons_cons, List.foldl_cons] at h ⊢
      rw [reg16Byte_xor_xor]
      exact h

theorem R32_xor (d1 d2 : List Nat) (s1 s2 : Nat) (hl : d1.length = d2.length) :
    R32 (s1 ^^^ s2) (xorBytes d1 d2) = R32 s1 d1 ^^^ R32 s2 d2 := by
  induction d1 generalizing d2 s1 s2 with
  | nil =>
    cases d2 with
    | nil => simp [R32, xorBytes]
    | cons y t => simp at hl
  | cons x t ih =>
    cases d2 with
    | nil => simp at hl
    | cons y u =>
      have hl2 : t.length = u.length := by simpa using hl
      have h := ih u (reg32Byte s1 x) (reg32Byte s2 y) hl2
      simp only [R32, xorBytes, List.zipWith_cons_cons, List.foldl_cons] at h ⊢
      rw [reg32Byte_xor_xor]
      exact h

theorem xorBytes_length (d1 d2 : List Nat) (hl : d1.length = d2.length) :
    (xorBytes d1 d2).length = d1.length := by
  simp [xorBytes, hl]

theorem xorBytes_isBytes (d1 d2 : List Nat) (h1 : IsBytes d1) (h2 : IsBytes d2) :
    IsBytes (xorBytes d1 d2) := by
  induction d1 generalizing d2 with
  | nil => intro x hx; simp [xorBytes] at hx
  | cons a t ih =>
    cases d2 with
    | nil => intro x hx; simp [xorBytes] at hx
    | cons b u =>
      intro x hx
      simp only [xorBytes, List.zipWith_cons_cons, List.mem_cons] at hx
      rcases hx with h | h
      · rw [h]
        exact Nat.xor_lt_two_pow (n := 8) (h1 a (List.mem_cons_self a t))
          (h2 b (List.mem_cons_self b u))
      · exact ih u (fun y hy => h1 y (List.mem_cons_of_mem a hy))
          (fun y hy => h2 y (List.mem_cons_of_mem b hy)) x h

theorem CrcCcitt_xor (d1 d2 : List Nat) (s1 s2 : Nat) (hl : d1.length = d2.length)
    (h1 : IsBytes d1) (h2 : IsBytes d2) (hs1 : s1 < 2 ^ 16) (hs2 : s2 < 2 ^ 16) :
    CrcCcitt (xorBytes d1 d2) d1.length (s1 ^^^ s2)
      = CrcCcitt d1 d1.length s1 ^^^ CrcCcitt d2 d1.length s2 := by
  have hx := CrcCcitt_eq_R16 (s1 ^^^ s2) (Nat.xor_lt_two_pow hs1 hs2) (xorBytes d1 d2)
    (xorBytes_isBytes d1 d2 h1 h2)
  rw [xorBytes_length d1 d2 hl] at hx
  have hy := CrcCcitt_eq_R16 s2 hs2 d2 h2
  rw [← hl] at hy
  rw [hx, CrcCcitt_eq_R16 s1 hs1 d1 h1, hy, R16_xor d1 d2 s1 s2 hl]

theorem Crc32_xor (d1 d2 : List Nat) (s1 s2 : Nat) (hl : d1.length = d2.length)
    (h1 : IsBytes d1) (h2 : IsBytes d2) (hs1 : s1 < 2 ^ 32) (hs2 : s2 < 2 ^ 32) :
    Crc32 (xorBytes d1 d2) d1.length (s1 ^^^ s2)
      = Crc32 d1 d1.length s1 ^^^ Crc32 d2 d1.length s2 := by
  have hx := Crc32_eq_R32 (s1 ^^^ s2) (Nat.xor_lt_two_pow hs1 hs2) (xorBytes d1 d2)
    (xorBytes_isBytes d1 d2 h1 h2)
  rw [xorBytes_length d1 d2 hl] at hx
  have hy := Crc32_eq_R32 s2 hs2 d2 h2
  rw [← hl] at hy
  rw [hx, Crc32_eq_R32 s1 hs1 d1 h1, hy, R32_xor d1 d2 s1 s2 hl]

/-- Claim C15: both checksums are XOR-linear in data and seed taken together.
For `n ≤ 65535`, byte buffers `d1`, `d2` of length `n` and seeds of the
variant's width, the checksum of the byte-wise XOR of the buffers under the
XOR of the seeds is the XOR of the two checksums, for `CrcCcitt` (16-bit seeds
`s1`, `s2`) and for `Crc32` (32-bit seeds `t1`, `t2`). -/
theorem crc_xor_linear (n : Nat) (d1 d2 : List Nat) (s1 s2 t1 t2 : Nat) (_hn : n ≤ 65535)
    (hl1 : d1.length = n) (hl2 : d2.length = n) (h1 : IsBytes d1) (h2 : IsBytes d2)
    (hs1 : s1 < 2 ^ 16) (hs2 : s2 < 2 ^ 16) (ht1 : t1 < 2 ^ 32) (ht2 : t2 < 2 ^ 32) :
    CrcCcitt (xorBytes d1 d2) n (s1 ^^^ s2) = CrcCcitt d1 n s1 ^^^ CrcCcitt d2 n s2 ∧
    Crc32 (xorBytes d1 d2) n (t1 ^^^ t2) = Crc32 d1 n t1 ^^^ Crc32 d2 n t2 := by
  subst hl1
  exact ⟨CrcCcitt_xor d1 d2 s1 s2 hl2.symm h1 h2 hs1 hs2,
    Crc32_xor d1 d2 t1 t2 hl2.symm h1 h2 ht1 ht2⟩

/-- Witness for C15 at the buffers `[0x31, 0x32]`, `[0xF0, 0x0F]`, the 16-bit
seeds `0xFFFF`, `0x1234` and the 32-bit seeds `0xFFFFFFFF`, `0x12345678`. -/
theorem crc_xor_linear_witness :
    (2 ≤ 65535 ∧ ([0x31, 0x32] : List Nat).length = 2 ∧ ([0xF0, 0x0F] : List Nat).length = 2 ∧
      IsBytes [0x31, 0x32] ∧ IsBytes [0xF0, 0x0F] ∧ 0xFFFF < 2 ^ 16 ∧ 0x1234 < 2 ^ 16 ∧
      0xFFFFFFFF < 2 ^ 32 ∧ 0x12345678 < 2 ^ 32) ∧
    (CrcCcitt (xorBytes [0x31, 0x32] [0xF0, 0x0F]) 2 (0xFFFF ^^^ 0x1234)
        = CrcCcitt [0x31, 0x32] 2 0xFFFF ^^^ CrcCcitt [0xF0, 0x0F] 2 0x1234 ∧
      Crc32 (xorBytes [0x31, 0x32] [0xF0, 0x0F]) 2 (0xFFFFFFFF ^^^ 0x12345678)
        = Crc32 [0x31, 0x32] 2 0xFFFFFFFF ^^^ Crc32 [0xF0, 0x0F] 2 0x12345678) :=
  ⟨⟨by decide, by decide, by decide, by decide, by decide, by decide, by decide, by decide,
      by decide⟩,
    crc_xor_linear 2 [0x31, 0x32] [0xF0, 0x0F] 0xFFFF 0x1234 0xFFFFFFFF 0x12345678 (by decide)
      (by decide) (by decide) (by decide) (by decide) (by decide) (by decide) (by decide)
      (by decide)⟩


/-! ## What the CRC-32 polynomial cannot see, and what the CCITT one always sees -/

theorem reg32Bit_iterate_root : reg32Bit^[8] 0xF6DC4190 = 0 := by decide

theorem R32_xor_root (s : Nat) (d : List Nat) (hd : d ≠ []) :
    R32 (s ^^^ 0xF6DC4190) d = R32 s d := by
  cases d with
  | nil => exact absurd rfl hd
  | cons x t =>
    simp only [R32, List.foldl_cons]
    rw [reg32Byte_xor, reg32Bit_iterate_root, Nat.xor_zero]

theorem R16_seed_injective (d : List Nat) (s1 s2 : Nat) (hs1 : s1 < 2 ^ 16) (hs2 : s2 < 2 ^ 16)
    (h : R16 s1 d = R16 s2 d) : s1 = s2 := by
  by_contra hne
  have he : s1 ^^^ s2 ≠ 0 := fun h0 => hne (Nat.xor_eq_zero.1 h0)
  have hlive : Live16 (s1 ^^^ s2) := ⟨he, Nat.xor_lt_two_pow hs1 hs2⟩
  have hx := R16_xor_ne d s1 (s1 ^^^ s2) hlive
  rw [Nat.xor_cancel_left] at hx
  exact hx h.symm

theorem R16_seed_surjective (d : List Nat) (hd : IsBytes d) (v : Nat) (hv : v < 2 ^ 16) :
    ∃ s, s < 2 ^ 16 ∧ R16 s d = v := by
  let f : Fin (2 ^ 16) → Fin (2 ^ 16) := fun s => ⟨R16 s.1 d, R16_lt s.1 s.2 d hd⟩
  have hinj : Function.Injective f := by
    intro a b hab
    exact Fin.ext (R16_seed_injective d a.1 b.1 a.2 b.2 (congrArg Fin.val hab))
  obtain ⟨s, hs⟩ := (Finite.injective_iff_surjective.1 hinj) ⟨v, hv⟩
  exact ⟨s.1, s.2, congrArg Fin.val hs⟩

set_option maxRecDepth 100000 in
theorem Crc32_burst_zero : Crc32 [0x0F, 0x6D, 0xC4, 0x19] 4 0 = 0 := by decide

set_option maxRecDepth 100000 in
theorem Crc32_zeros_zero : Crc32 [0x00, 0x00, 0x00, 0x00] 4 0 = 0 := by decide

/-- Claim C16: the CRC-32 variant misses a 28-bit burst error. For every 32-bit
seed `s` and every 4-byte buffer `d`, XOR-ing `[0x0F, 0x6D, 0xC4, 0x19]` into
`d` gives a different buffer with the same checksum; in particular the
burst itself and the all-zero message both have checksum 0 under seed 0. -/
theorem Crc32_misses_burst (s : Nat) (d : List Nat) (hs : s < 2 ^ 32) (hl : d.length = 4)
    (hd : IsBytes d) :
    Crc32 (xorBytes d [0x0F, 0x6D, 0xC4, 0x19]) 4 s = Crc32 d 4 s ∧
    xorBytes d [0x0F, 0x6D, 0xC4, 0x19] ≠ d ∧
    Crc32 [0x0F, 0x6D, 0xC4, 0x19] 4 0 = 0 ∧ Crc32 [0x00, 0x00, 0x00, 0x00] 4 0 = 0 := by
  have hz : Crc32 [0x0F, 0x6D, 0xC4, 0x19] 4 0 = 0 := Crc32_burst_zero
  refine ⟨?_, ?_, hz, Crc32_zeros_zero⟩
  · have h := Crc32_xor d [0x0F, 0x6D, 0xC4, 0x19] s 0 (by rw [hl]; rfl) hd (by decide) hs
      (by norm_num)
    rw [hl, Nat.xor_zero, hz, Nat.xor_zero] at h
    exact h
  · obtain ⟨a, b, c, e, rfl⟩ := list_length_four hl
    intro heq
    simp only [xorBytes, List.zipWith_cons_cons, List.cons.injEq] at heq
    exact xor_ne_self a 0x0F (by decide) heq.1

/-- Witness for C16 at seed `0xFFFFFFFF` and the buffer `[0x31, 0x32, 0x33, 0x34]`. -/
theorem Crc32_misses_burst_witness :
    (0xFFFFFFFF < 2 ^ 32 ∧ ([0x31, 0x32, 0x33, 0x34] : List Nat).length = 4 ∧
      IsBytes [0x31, 0x32, 0x33, 0x34]) ∧
    (Crc32 (xorBytes [0x31, 0x32, 0x33, 0x34] [0x0F, 0x6D, 0xC4, 0x19]) 4 0xFFFFFFFF
        = Crc32 [0x31, 0x32, 0x33, 0x34] 4 0xFFFFFFFF ∧
      xorBytes [0x31, 0x32, 0x33, 0x34] [0x0F, 0x6D, 0xC4, 0x19] ≠ [0x31, 0x32, 0x33, 0x34] ∧
      Crc32 [0x0F, 0x6D, 0xC4, 0x19] 4 0 = 0 ∧ Crc32 [0x00, 0x00, 0x00, 0x00] 4 0 = 0) :=
  ⟨⟨by decide, by decide, by decide⟩,
    Crc32_misses_burst 0xFFFFFFFF [0x31, 0x32, 0x33, 0x34] (by decide) (by decide) (by decide)⟩

/-- Claim C17: distinct CRC-32 seeds can be indistinguishable. For every 32-bit
seed `s` and every byte buffer `d` of length `n` with `1 ≤ n ≤ 65535`, the seed
`s xor 0xF6DC4190` is a different 32-bit seed that gives the same checksum, so
`Crc32` is not injective in its seed on any non-empty input. -/
theorem Crc32_seed_collision (s : Nat) (d : List Nat) (n : Nat) (hs : s < 2 ^ 32)
    (hd : IsBytes d) (hn : d.length = n) (h1 : 1 ≤ n) (_hmax : n ≤ 65535) :
    Crc32 d n (s ^^^ 0xF6DC4190) = Crc32 d n s ∧
    s ^^^ 0xF6DC4190 ≠ s ∧ s ^^^ 0xF6DC4190 < 2 ^ 32 := by
  subst hn
  have hlt : s ^^^ 0xF6DC4190 < 2 ^ 32 := Nat.xor_lt_two_pow hs (by norm_num)
  have hne : d ≠ [] := by
    intro h0
    rw [h0] at h1
    simp at h1
  refine ⟨?_, xor_ne_self s 0xF6DC4190 (by decide), hlt⟩
  rw [Crc32_eq_R32 _ hlt d hd, Crc32_eq_R32 s hs d hd, R32_xor_root s d hne]

/-- Witness for C17 at seed `5` and the buffer `[0x01, 0x02, 0x03]`. -/
theorem Crc32_seed_collision_witness :
    (5 < 2 ^ 32 ∧ IsBytes [0x01, 0x02, 0x03] ∧ ([0x01, 0x02, 0x03] : List Nat).length = 3 ∧
      1 ≤ 3 ∧ 3 ≤ 65535) ∧
    (Crc32 [0x01, 0x02, 0x03] 3 (5 ^^^ 0xF6DC4190) = Crc32 [0x01, 0x02, 0x03] 3 5 ∧
      5 ^^^ 0xF6DC4190 ≠ 5 ∧ 5 ^^^ 0xF6DC4190 < 2 ^ 32) :=
  ⟨⟨by decide, by decide, by decide, by decide, by decide⟩,
    Crc32_seed_collision 5 [0x01, 0x02, 0x03] 3 (by decide) (by decide) (by decide) (by decide)
      (by decide)⟩

/-- Claim C18: for CCITT the running state never merges. For a byte buffer `d`
of length `n ≤ 65535` and 16-bit seeds `s1`, `s2`, equal checksums force equal
seeds; and, the checksum being a 16-bit value, every 16-bit value is the
checksum of `d` under some 16-bit seed, so for fixed data the checksum is a
bijection of the seeds. -/
theorem CrcCcitt_seed_bijective (d : List Nat) (n : Nat) (hd : IsBytes d) (hn : d.length = n)
    (_hmax : n ≤ 65535) :
    (∀ s1 s2, s1 < 2 ^ 16 → s2 < 2 ^ 16 → CrcCcitt d n s1 = CrcCcitt d n s2 → s1 = s2) ∧
    (∀ s, s < 2 ^ 16 → CrcCcitt d n s < 2 ^ 16) ∧
    (∀ v, v < 2 ^ 16 → ∃ s, s < 2 ^ 16 ∧ CrcCcitt d n s = v) := by
  subst hn
  refine ⟨?_, ?_, ?_⟩
  · intro s1 s2 hs1 hs2 h
    rw [CrcCcitt_eq_R16 s1 hs1 d hd, CrcCcitt_eq_R16 s2 hs2 d hd] at h
    exact R16_seed_injective d s1 s2 hs1 hs2 h
  · intro s hs
    rw [CrcCcitt_eq_R16 s hs d hd]
    exact R16_lt s hs d hd
  · intro v hv
    obtain ⟨s, hs, h⟩ := R16_seed_surjective d hd v hv
    exact ⟨s, hs, by rw [CrcCcitt_eq_R16 s hs d hd, h]⟩

/-- Witness for C18 at the buffer `[0x31, 0x32]`. -/
theorem CrcCcitt_seed_bijective_witness :
    (IsBytes [0x31, 0x32] ∧ ([0x31, 0x32] : List Nat).length = 2 ∧ 2 ≤ 65535) ∧
    ((∀ s1 s2, s1 < 2 ^ 16 → s2 < 2 ^ 16 →
        CrcCcitt [0x31, 0x32] 2 s1 = CrcCcitt [0x31, 0x32] 2 s2 → s1 = s2) ∧
      (∀ s, s < 2 ^ 16 → CrcCcitt [0x31, 0x32] 2 s < 2 ^ 16) ∧
      (∀ v, v < 2 ^ 16 → ∃ s, s < 2 ^ 16 ∧ CrcCcitt [0x31, 0x32] 2 s = v)) :=
  ⟨⟨by decide, by decide, by decide⟩,
    CrcCcitt_seed_bijective [0x31, 0x32] 2 (by decide) (by decide) (by decide)⟩


/-! ## One bit step of the generic engine, for any width -/

theorem getD_set_self (r : List Nat) (i v : Nat) (h : i < r.length) :
    (r.set i v).getD i 0 = v := by
  simp [h]

theorem getD_set_ne (r : List Nat) (i j v : Nat) (h : i ≠ j) :
    (r.set i v).getD j 0 = r.getD j 0 := by
  simp [List.getElem?_set_ne h]

theorem isBytes_getD (c : List Nat) (hc : IsBytes c) (i : Nat) : c.getD i 0 < 256 := by
  by_cases hi : i < c.length
  · rw [List.getD_eq_getElem c 0 hi]
    exact hc _ (List.getElem_mem hi)
  · rw [List.getD_eq_default c 0 (by omega)]
    norm_num

theorem foldl_set_range (F : List Nat → Nat → List Nat) (val : Nat → Nat) (c : List Nat)
    (hF : ∀ r i, i < c.length → r.length = c.length → r.getD i 0 = c.getD i 0 →
      r.getD (i + 1) 0 = c.getD (i + 1) 0 → F r i = r.set i (val i))
    (k : Nat) (hk : k ≤ c.length) :
    ((List.range k).foldl F c).length = c.length ∧
    (∀ i, i < k → ((List.range k).foldl F c).getD i 0 = val i) ∧
    (∀ i, k ≤ i → ((List.range k).foldl F c).getD i 0 = c.getD i 0) := by
  induction k with
  | zero => simp
  | succ k ih =>
    obtain ⟨hlen, hlo, hhi⟩ := ih (by omega)
    rw [List.range_succ, List.foldl_append]
    simp only [List.foldl_cons, List.foldl_nil]
    rw [hF _ k (by omega) hlen (hhi k (Nat.le_refl k)) (hhi (k + 1) (by omega))]
    refine ⟨by rw [List.length_set, hlen], ?_, ?_⟩
    · intro i hi
      by_cases hik : i = k
      · subst hik
        exact getD_set_self _ _ _ (by omega)
      · rw [getD_set_ne _ _ _ _ (fun h => hik h.symm)]
        exact hlo i (by omega)
    · intro i hi
      rw [getD_set_ne _ _ _ _ (by omega)]
      exact hhi i (by omega)

theorem shiftXorByte_eq (poly r : List Nat) (i : Nat) (hi : i < r.length) :
    shiftXorByte poly r i = r.set i
      ((((r.getD i 0 <<< 1) &&& 0xff) ||| ((r.getD (i + 1) 0 &&& MSB) >>> (BITS_PER_BYTE - 1)))
        ^^^ poly.getD i 0) := by
  unfold shiftXorByte
  simp only []
  rw [getD_set_self r i _ hi, List.set_set]


theorem bitStep_msb_set (p c : List Nat) (w : Nat) (hw : 1 ≤ w) (hc : c.length = w)
    (hm : (c.getD 0 0 &&& MSB) ≠ 0) :
    (bitStep p w c).length = w ∧
    (∀ i, i < w - 1 → (bitStep p w c).getD i 0 =
      (((c.getD i 0 <<< 1) &&& 0xff) ||| ((c.getD (i + 1) 0 &&& MSB) >>> (BITS_PER_BYTE - 1)))
        ^^^ p.getD i 0) ∧
    (bitStep p w c).getD (w - 1) 0 = ((c.getD (w - 1) 0 <<< 1) &&& 0xff) ^^^ p.getD (w - 1) 0 := by
  have hfold := foldl_set_range (shiftXorByte p)
    (fun i => (((c.getD i 0 <<< 1) &&& 0xff) |||
      ((c.getD (i + 1) 0 &&& MSB) >>> (BITS_PER_BYTE - 1))) ^^^ p.getD i 0) c
    (by
      intro r i hi hrl h1 h2
      rw [shiftXorByte_eq p r i (by omega), h1, h2])
    (w - 1) (by omega)
  obtain ⟨hlen, hlo, hhi⟩ := hfold
  have hlast : w - 1 < ((List.range (w - 1)).foldl (shiftXorByte p) c).length := by omega
  have hb : bitStep p w c = ((List.range (w - 1)).foldl (shiftXorByte p) c).set (w - 1)
      (((c.getD (w - 1) 0 <<< 1) &&& 0xff) ^^^ p.getD (w - 1) 0) := by
    unfold bitStep
    rw [if_pos hm]
    simp only []
    rw [getD_set_self _ _ _ hlast, List.set_set, hhi (w - 1) (Nat.le_refl _)]
  rw [hb]
  refine ⟨by rw [List.length_set, hlen, hc], ?_, getD_set_self _ _ _ hlast⟩
  intro i hi
  rw [getD_set_ne _ _ _ _ (by omega)]
  exact hlo i hi

theorem bitStep_msb_clear (p c : List Nat) (w : Nat) (hw : 1 ≤ w) (hc : c.length = w)
    (hm : ¬ (c.getD 0 0 &&& MSB) ≠ 0) :
    (bitStep p w c).length = w ∧
    (∀ i, i < w - 1 → (bitStep p w c).getD i 0 =
      ((c.getD i 0 <<< 1) &&& 0xff) ||| ((c.getD (i + 1) 0 &&& MSB) >>> (BITS_PER_BYTE - 1))) ∧
    (bitStep p w c).getD (w - 1) 0 = (c.getD (w - 1) 0 <<< 1) &&& 0xff := by
  have hfold := foldl_set_range shiftByte
    (fun i => ((c.getD i 0 <<< 1) &&& 0xff) |||
      ((c.getD (i + 1) 0 &&& MSB) >>> (BITS_PER_BYTE - 1))) c
    (by
      intro r i hi hrl h1 h2
      unfold shiftByte
      rw [h1, h2])
    (w - 1) (by omega)
  obtain ⟨hlen, hlo, hhi⟩ := hfold
  have hlast : w - 1 < ((List.range (w - 1)).foldl shiftByte c).length := by omega
  have hb : bitStep p w c = ((List.range (w - 1)).foldl shiftByte c).set (w - 1)
      ((c.getD (w - 1) 0 <<< 1) &&& 0xff) := by
    unfold bitStep
    rw [if_neg hm]
    simp only []
    rw [hhi (w - 1) (Nat.le_refl _)]
  rw [hb]
  refine ⟨by rw [List.length_set, hlen, hc], ?_, getD_set_self _ _ _ hlast⟩
  intro i hi
  rw [getD_set_ne _ _ _ _ (by omega)]
  exact hlo i hi

set_option maxRecDepth 100000 in
theorem msb_testBit_byte : ∀ a < 256, (a &&& 0x80) ≠ 0 ↔ a.testBit 7 = true := by decide

set_option maxRecDepth 100000 in
theorem msb_shift_eq_shift_byte : ∀ b < 256, (b &&& 0x80) >>> 7 = b >>> 7 := by decide

/-- Claim C13: one bit step of the generic engine is shift-then-conditional-XOR.
For a width `w ≥ 1`, a polynomial `p` and a register `c` of `w` bytes, the
register after one iteration of the bit loop has `w` bytes, byte `i < w - 1` is
`(((c[i] << 1) & 0xFF) | (c[i+1] >> 7)) xor m[i]` and byte `w - 1` is
`((c[w-1] << 1) & 0xFF) xor m[w-1]`, where `m` is `p` when bit 7 of `c[0]` is
set and zero otherwise, and every `c[i+1]` is the value before the step. -/
theorem bitStep_shift_then_xor (w : Nat) (p c : List Nat) (hw : 1 ≤ w) (_hp : p.length = w)
    (_hpb : IsBytes p) (hc : c.length = w) (hcb : IsBytes c) :
    (bitStep p w c).length = w ∧
    (∀ i, i < w - 1 → (bitStep p w c).getD i 0 =
      (((c.getD i 0 <<< 1) &&& 0xFF) ||| (c.getD (i + 1) 0 >>> 7))
        ^^^ (if (c.getD 0 0).testBit 7 then p.getD i 0 else 0)) ∧
    (bitStep p w c).getD (w - 1) 0 =
      ((c.getD (w - 1) 0 <<< 1) &&& 0xFF)
        ^^^ (if (c.getD 0 0).testBit 7 then p.getD (w - 1) 0 else 0) := by
  have h0 := msb_testBit_byte (c.getD 0 0) (isBytes_getD c hcb 0)
  by_cases hm : (c.getD 0 0 &&& MSB) ≠ 0
  · obtain ⟨hlen, hlo, hlast⟩ := bitStep_msb_set p c w hw hc hm
    have ht : (c.getD 0 0).testBit 7 = true := h0.1 hm
    refine ⟨hlen, ?_, ?_⟩
    · intro i hi
      rw [hlo i hi, ht, if_pos rfl]
      have := msb_shift_eq_shift_byte (c.getD (i + 1) 0) (isBytes_getD c hcb (i + 1))
      simp only [MSB, BITS_PER_BYTE] at this ⊢
      rw [this]
    · rw [hlast, ht, if_pos rfl]
  · obtain ⟨hlen, hlo, hlast⟩ := bitStep_msb_clear p c w hw hc hm
    have ht : ¬ (c.getD 0 0).testBit 7 = true := fun h => hm (h0.2 h)
    refine ⟨hlen, ?_, ?_⟩
    · intro i hi
      rw [hlo i hi, if_neg ht, Nat.xor_zero]
      have := msb_shift_eq_shift_byte (c.getD (i + 1) 0) (isBytes_getD c hcb (i + 1))
      simp only [MSB, BITS_PER_BYTE] at this ⊢
      rw [this]
    · rw [hlast, if_neg ht, Nat.xor_zero]

/-- Witness for C13 at width 4, the CRC-32 polynomial bytes and the register
`[0x80, 0x01, 0xFF, 0x7F]`. -/
theorem bitStep_shift_then_xor_witness :
    (1 ≤ 4 ∧ CRC_32_POLY.length = 4 ∧ IsBytes CRC_32_POLY ∧
      ([0x80, 0x01, 0xFF, 0x7F] : List Nat).length = 4 ∧ IsBytes [0x80, 0x01, 0xFF, 0x7F]) ∧
    ((bitStep CRC_32_POLY 4 [0x80, 0x01, 0xFF, 0x7F]).length = 4 ∧
    (∀ i, i < 4 - 1 → (bitStep CRC_32_POLY 4 [0x80, 0x01, 0xFF, 0x7F]).getD i 0 =
      (((([0x80, 0x01, 0xFF, 0x7F] : List Nat).getD i 0 <<< 1) &&& 0xFF) |||
          (([0x80, 0x01, 0xFF, 0x7F] : List Nat).getD (i + 1) 0 >>> 7))
        ^^^ (if (([0x80, 0x01, 0xFF, 0x7F] : List Nat).getD 0 0).testBit 7
          then CRC_32_POLY.getD i 0 else 0)) ∧
    (bitStep CRC_32_POLY 4 [0x80, 0x01, 0xFF, 0x7F]).getD (4 - 1) 0 =
      (((([0x80, 0x01, 0xFF, 0x7F] : List Nat).getD (4 - 1) 0) <<< 1) &&& 0xFF)
        ^^^ (if (([0x80, 0x01, 0xFF, 0x7F] : List Nat).getD 0 0).testBit 7
          then CRC_32_POLY.getD (4 - 1) 0 else 0)) :=
  ⟨⟨by decide, by decide, by decide, by decide, by decide⟩,
    bitStep_shift_then_xor 4 CRC_32_POLY [0x80, 0x01, 0xFF, 0x7F] (by decide) (by decide)
      (by decide) (by decide) (by decide)⟩

end CrcLib
